import Mathlib

/-!
Verification of the delta-sharing-gateway test tooling and of the gateway
server model implied by its specification.

The repository's source (under test-python/) is pure HTTP client/test glue:
it issues requests against a Delta Sharing gateway, parses newline-delimited
JSON (NDJSON) responses, and validates data-skipping / limit-hint behaviour.
This file gives a shallow embedding of:

 * the client-side text processing (`_parse_ndjson`, `parse_files`,
   `load_profile_config`, `_initialize_resources`, `_execute_request`,
   header merging), translated directly from the Python source; Python
   strings are modelled as `List Char`, Python dictionaries parsed from
   JSON as a `Json` inductive, raised exceptions as `Except`/`Option`
   results, and the ambient filesystem / HTTP responses as explicit inputs;
 * the JSON codec: `json_loads` models the standard-library `json.loads`
   used by the scripts (an external collaborator, embedded as an executable
   recursive-descent parser over an integer/string/array/object JSON value
   type, tolerating outer whitespace), and the serializer `serJson` models
   compact one-line JSON encoding;
 * the server components that the repository does not contain (the spec
   describes the gateway implied by the tests): the Predicate Evaluator,
   Query Planner, Protocol Negotiator and Response Encoder are modelled
   from the spec, each marked `Modelled from the spec:` in its doc comment.
-/

namespace DSG

/-- Python strings are modelled as lists of characters. -/
abbrev Str := List Char

/-- The whitespace characters stripped by Python's `str.strip()`. -/
def isPySpace (c : Char) : Bool :=
  c = ' ' || c = '\t' || c = '\n' || c = '\r' || c = '\x0b' || c = '\x0c'

/-- Python `str.strip()`: remove leading and trailing whitespace. -/
def pyStrip (cs : Str) : Str :=
  ((cs.dropWhile isPySpace).reverse.dropWhile isPySpace).reverse

/-- Python `str.split('\n')`: split on every newline; the empty string
yields one empty field. -/
def splitNl : Str → List Str
  | [] => [[]]
  | c :: rest =>
    if c = '\n' then [] :: splitNl rest
    else
      match splitNl rest with
      | [] => [[c]]
      | l :: ls => (c :: l) :: ls

/-- Join lines with single newline separators (inverse of `splitNl` on
newline-free lines). -/
def joinNl : List Str → Str
  | [] => []
  | [l] => l
  | l :: l2 :: ls => l ++ '\n' :: joinNl (l2 :: ls)

/-- The decimal digit character for a value below ten. -/
def digitChar : Nat → Char
  | 0 => '0' | 1 => '1' | 2 => '2' | 3 => '3' | 4 => '4'
  | 5 => '5' | 6 => '6' | 7 => '7' | 8 => '8' | _ => '9'

/-- Decimal digits with an explicit structural recursion bound (any bound
above the number works; see `natToDigitsF_congr`). -/
def natToDigitsF : Nat → Nat → Str
  | 0, _ => []
  | fuel + 1, n =>
    if n < 10 then [digitChar n]
    else natToDigitsF fuel (n / 10) ++ [digitChar (n % 10)]

/-- Decimal digits of a natural number, most significant first. -/
def natToDigits (n : Nat) : Str := natToDigitsF (n + 1) n

/-- Value of a decimal digit string (left fold, as Python `int` would read it). -/
def digitsToNat (ds : Str) : Nat :=
  ds.foldl (fun acc c => acc * 10 + (c.toNat - 48)) 0

/-- JSON string escaping for one character (the escapes emitted by a
compact JSON encoder: quote, backslash and the common control characters). -/
def escapeChar (c : Char) : Str :=
  if c = '"' then ['\\', '"']
  else if c = '\\' then ['\\', '\\']
  else if c = '\n' then ['\\', 'n']
  else if c = '\r' then ['\\', 'r']
  else if c = '\t' then ['\\', 't']
  else [c]

/-- Escape every character of a string body. -/
def escapeStr : Str → Str
  | [] => []
  | c :: cs => escapeChar c ++ escapeStr cs

/-- Inverse of `escapeChar` on the character following a backslash. -/
def unescapeChar (c : Char) : Option Char :=
  if c = '"' then some '"'
  else if c = '\\' then some '\\'
  else if c = 'n' then some '\n'
  else if c = 'r' then some '\r'
  else if c = 't' then some '\t'
  else none

/-- Parse a JSON string body (the opening quote already consumed) up to the
closing quote; returns the decoded body and the remaining input. -/
def parseStr : Str → Option (Str × Str)
  | [] => none
  | c :: rest =>
    if c = '"' then some ([], rest)
    else if c = '\\' then
      match rest with
      | [] => none
      | e :: rest2 =>
        match unescapeChar e with
        | none => none
        | some c2 =>
          match parseStr rest2 with
          | none => none
          | some (s, r) => some (c2 :: s, r)
    else
      match parseStr rest with
      | none => none
      | some (s, r) => some (c :: s, r)
termination_by structural cs => cs

/-- JSON values as manipulated by the Python scripts: `null`, booleans,
integers, strings, arrays and objects (dictionaries with string keys,
insertion ordered).  Floats never occur in the repository's JSON traffic
model. -/
inductive Json where
  | null : Json
  | bool : Bool → Json
  | num : Int → Json
  | str : Str → Json
  | arr : List Json → Json
  | obj : List (Str × Json) → Json

mutual
/-- Structural equality on JSON values (modelling Python `==` on values
parsed from JSON; objects are compared field-list–wise). -/
def jeq : Json → Json → Bool
  | .null, .null => true
  | .bool a, .bool b => a == b
  | .num a, .num b => a == b
  | .str a, .str b => a == b
  | .arr a, .arr b => jeqList a b
  | .obj a, .obj b => jeqFields a b
  | _, _ => false
termination_by structural a => a

/-- Elementwise equality of JSON arrays. -/
def jeqList : List Json → List Json → Bool
  | [], [] => true
  | x :: xs, y :: ys => jeq x y && jeqList xs ys
  | _, _ => false
termination_by structural a => a

/-- Fieldwise equality of JSON objects. -/
def jeqFields : List (Str × Json) → List (Str × Json) → Bool
  | [], [] => true
  | (k, v) :: xs, (k2, v2) :: ys => k == k2 && jeq v v2 && jeqFields xs ys
  | _, _ => false
termination_by structural a => a
end


/-- Serialize an integer in decimal. -/
def serInt (n : Int) : Str :=
  if n < 0 then '-' :: natToDigits n.natAbs else natToDigits n.natAbs

/-- Serialize a JSON string with quotes and escaping. -/
def serStr (s : Str) : Str := '"' :: escapeStr s ++ ['"']

/-- The keyword `null`. -/
def nullLit : Str := ['n', 'u', 'l', 'l']

/-- The keyword `true`. -/
def trueLit : Str := ['t', 'r', 'u', 'e']

/-- The keyword `false`. -/
def falseLit : Str := ['f', 'a', 'l', 's', 'e']

mutual
/-- Compact single-line JSON serialization (as produced by `json.dumps`
with compact separators; newline-free by construction). -/
def serJson : Json → Str
  | .null => nullLit
  | .bool true => trueLit
  | .bool false => falseLit
  | .num n => serInt n
  | .str s => serStr s
  | .arr xs => '[' :: serElems xs ++ [']']
  | .obj kvs => '{' :: serFields kvs ++ ['}']
termination_by structural j => j

/-- Comma-separated serialization of array elements. -/
def serElems : List Json → Str
  | [] => []
  | [x] => serJson x
  | x :: y :: xs => serJson x ++ ',' :: serElems (y :: xs)
termination_by structural xs => xs

/-- Comma-separated serialization of object fields (`"key":value`). -/
def serFields : List (Str × Json) → Str
  | [] => []
  | [(k, v)] => serStr k ++ ':' :: serJson v
  | (k, v) :: kv :: kvs => serStr k ++ ':' :: serJson v ++ ',' :: serFields (kv :: kvs)
termination_by structural kvs => kvs
end

mutual
/-- Parser-fuel size of a JSON value (max-shaped so that one unit of fuel
per nesting/step suffices, see `parseVal_ser`). -/
def jsize : Json → Nat
  | .arr xs => 1 + esize xs
  | .obj kvs => 1 + osize kvs
  | _ => 1
termination_by structural j => j

/-- Fuel size of an element list. -/
def esize : List Json → Nat
  | [] => 1
  | x :: xs => 1 + max (jsize x) (esize xs)
termination_by structural xs => xs

/-- Fuel size of a field list. -/
def osize : List (Str × Json) → Nat
  | [] => 1
  | (_, v) :: kvs => 1 + max (jsize v) (osize kvs)
termination_by structural kvs => kvs
end

/-- Does the input start with a decimal digit? -/
def headDigit : Str → Bool
  | [] => false
  | c :: _ => c.isDigit

mutual
/-- Fuel-indexed recursive-descent parser for one JSON value; returns the
value and the unconsumed suffix. -/
def parseVal : Nat → Str → Option (Json × Str)
  | 0, _ => none
  | fuel + 1, cs =>
    match cs with
    | [] => none
    | c :: rest =>
      if c.isDigit then
        let ds := (c :: rest).takeWhile Char.isDigit
        some (.num (digitsToNat ds), (c :: rest).dropWhile Char.isDigit)
      else if c = '-' then
        let ds := rest.takeWhile Char.isDigit
        if ds.isEmpty then none
        else some (.num (-(digitsToNat ds : Int)), rest.dropWhile Char.isDigit)
      else if c = '"' then
        match parseStr rest with
        | none => none
        | some (s, r) => some (.str s, r)
      else if c = '[' then
        match parseElems fuel rest with
        | none => none
        | some (xs, r) => some (.arr xs, r)
      else if c = '{' then
        match parseFields fuel rest with
        | none => none
        | some (kvs, r) => some (.obj kvs, r)
      else
        match c :: rest with
        | 'n' :: 'u' :: 'l' :: 'l' :: r => some (.null, r)
        | 't' :: 'r' :: 'u' :: 'e' :: r => some (.bool true, r)
        | 'f' :: 'a' :: 'l' :: 's' :: 'e' :: r => some (.bool false, r)
        | _ => none

/-- Parse the elements of an array after the opening bracket. -/
def parseElems : Nat → Str → Option (List Json × Str)
  | 0, _ => none
  | fuel + 1, cs =>
    match cs with
    | [] => none
    | c :: rest =>
      if c = ']' then some ([], rest)
      else
        match parseVal fuel (c :: rest) with
        | none => none
        | some (j, r) =>
          match r with
          | ',' :: r2 =>
            match parseElems fuel r2 with
            | none => none
            | some (js, r3) => some (j :: js, r3)
          | ']' :: r2 => some ([j], r2)
          | _ => none

/-- Parse the fields of an object after the opening brace. -/
def parseFields : Nat → Str → Option (List (Str × Json) × Str)
  | 0, _ => none
  | fuel + 1, cs =>
    match cs with
    | [] => none
    | c :: rest =>
      if c = '}' then some ([], rest)
      else if c = '"' then
        match parseStr rest with
        | none => none
        | some (k, r) =>
          match r with
          | ':' :: r2 =>
            match parseVal fuel r2 with
            | none => none
            | some (v, r3) =>
              match r3 with
              | ',' :: r4 =>
                match parseFields fuel r4 with
                | none => none
                | some (kvs, r5) => some ((k, v) :: kvs, r5)
              | '}' :: r4 => some ([(k, v)], r4)
              | _ => none
          | _ => none
      else none
end

/-- Model of the Python standard library's `json.loads` as used by the
scripts: tolerate surrounding whitespace, parse exactly one JSON value,
fail (returning `none`, standing for a raised `json.JSONDecodeError`) on
trailing garbage or syntax errors. -/
def json_loads (s : Str) : Option Json :=
  let t := pyStrip s
  match parseVal (t.length + 1) t with
  | some (j, []) => some j
  | _ => none

/-- The characters a serialized JSON value can start with. -/
def goodStart (c : Char) : Prop :=
  c.isDigit = true ∨ c = 'n' ∨ c = 't' ∨ c = 'f' ∨ c = '"' ∨ c = '[' ∨ c = '{' ∨ c = '-'

/-! ### The NDJSON client parser (`_parse_ndjson`) -/

/-- The placeholder `str(e)` message stored by `_parse_ndjson` when a line
fails to parse (its exact text is irrelevant to every property proved
here). -/
def parseErrorMsg : Str :=
  ['E', 'x', 'p', 'e', 'c', 't', 'i', 'n', 'g', ' ', 'v', 'a', 'l', 'u', 'e']

/-- The key `'_parse_error'`. -/
def parseErrorKey : Str :=
  ['_', 'p', 'a', 'r', 's', 'e', '_', 'e', 'r', 'r', 'o', 'r']

/-- The key `'_raw'`. -/
def rawKey : Str := ['_', 'r', 'a', 'w']

/-- The dictionary `{'_parse_error': str(e), '_raw': line}` appended by
`_parse_ndjson` for an unparseable line. -/
def parseErrorObj (line : Str) : Json :=
  .obj [(parseErrorKey, .str parseErrorMsg), (rawKey, .str line)]

/-- From test_delta_sharing_protocol.py, `_parse_ndjson` (lines 129-138):
strip the response text, split on newlines, drop lines that are blank
after stripping, `json.loads` each remaining line, and on a decode error
append `{'_parse_error': ..., '_raw': line}` instead of raising. -/
def parse_ndjson (response_text : Str) : List Json :=
  (splitNl (pyStrip response_text)).foldl
    (fun lines line =>
      if (pyStrip line).isEmpty then lines
      else
        match json_loads line with
        | some j => lines ++ [j]
        | none => lines ++ [parseErrorObj line])
    []

/-- The value `_parse_ndjson` records for one non-blank line. -/
def lineValue (line : Str) : Json :=
  match json_loads line with
  | some j => j
  | none => parseErrorObj line

/-! ### Python value semantics helpers -/

/-- Association-list lookup on an object's field list (first match wins,
modelling a Python dict whose parsed JSON had unique keys). -/
def lookupField : List (Str × Json) → Str → Option Json
  | [], _ => none
  | (k, v) :: kvs, key => if k = key then some v else lookupField kvs key

/-- `j.isStr` -/
def isStrJson : Json → Bool
  | .str _ => true
  | _ => false

/-- `j.isObj` -/
def isObjJson : Json → Bool
  | .obj _ => true
  | _ => false

/-- Substring test (Python `needle in haystack` on strings). -/
def containsSub (needle : Str) : Str → Bool
  | [] => needle.isEmpty
  | c :: t => needle.isPrefixOf (c :: t) || containsSub needle t

/-- Python `needle in container` for a string needle, with Python's error
semantics: dict → key membership, list → elementwise equality, str →
substring test, anything else → `TypeError` (modelled as `Except.error`). -/
def pyInStr (needle : Str) : Json → Except Unit Bool
  | .obj kvs => .ok (lookupField kvs needle).isSome
  | .arr xs => .ok (xs.any (fun x => jeq x (Json.str needle)))
  | .str s => .ok (containsSub needle s)
  | _ => .error ()

/-- Python `container[key]` for a string key: dict lookup (`KeyError` when
absent), `TypeError` on any non-dict. -/
def subscrStr (j : Json) (key : Str) : Except Unit Json :=
  match j with
  | .obj kvs =>
    match lookupField kvs key with
    | some v => .ok v
    | none => .error ()
  | _ => .error ()

/-- Python `container[i]` for a non-negative integer index. -/
def subscrIdx (j : Json) (i : Nat) : Except Unit Json :=
  match j with
  | .arr xs =>
    match xs.get? i with
    | some v => .ok v
    | none => .error ()
  | .str s =>
    match s.get? i with
    | some c => .ok (.str [c])
    | none => .error ()
  | _ => .error ()

/-- Python `len()`. -/
def pyLen (j : Json) : Except Unit Nat :=
  match j with
  | .obj kvs => .ok kvs.length
  | .arr xs => .ok xs.length
  | .str s => .ok s.length
  | _ => .error ()

/-- Python `d.get(key)` (`None` — i.e. `none` — when absent);
`AttributeError` on a non-dict. -/
def jget (j : Json) (key : Str) : Except Unit (Option Json) :=
  match j with
  | .obj kvs => .ok (lookupField kvs key)
  | _ => .error ()

/-- Python `for x in j`: lists yield elements, strings yield one-character
strings, dicts yield their keys; other values raise `TypeError`. -/
def pyIter (j : Json) : Except Unit (List Json) :=
  match j with
  | .arr xs => .ok xs
  | .str s => .ok (s.map (fun c => .str [c]))
  | .obj kvs => .ok (kvs.map (fun kv => .str kv.1))
  | _ => .error ()

/-! ### `parse_files` (test_delta_sharing.py, lines 1221-1230) -/

/-- The key `'file'`. -/
def fileKey : Str := "file".data

/-- One loop iteration of `parse_files`: `json.loads` the line, check
`'file' in obj`, and read `obj['file']`; every raised exception is
swallowed by the bare `except: pass`, dropping the line. -/
def parseFileLine (line : Str) : Option Json :=
  match json_loads line with
  | none => none
  | some o =>
    match pyInStr fileKey o with
    | .error _ => none
    | .ok false => none
    | .ok true =>
      match subscrStr o fileKey with
      | .error _ => none
      | .ok v => some v

/-- From test_delta_sharing.py `parse_files` (lines 1221-1230): split the
stripped response text on newlines and collect the `'file'` payload of
every line that yields one. -/
def parse_files (response_text : Str) : List Json :=
  (splitNl (pyStrip response_text)).foldl
    (fun files line =>
      match parseFileLine line with
      | some v => files ++ [v]
      | none => files)
    []

/-! ### Spec-modelled server: File Index entries, Predicate Evaluator,
Query Planner, Response Encoder -/

/-- Modelled from the spec (§3 "File entry"): id, content URL, size and the
partition-value assignment (partition-column name → string value). -/
structure FileEntry where
  id : Str
  url : Str
  size : Nat
  partitionValues : List (Str × Str)
deriving DecidableEq

/-- Modelled from the spec (§3 "Predicate hint"): comparison operators. -/
inductive CompOp where
  | eq | gt | lt | ge | le | ne
deriving DecidableEq

/-- Modelled from the spec (§3 "Predicate hint"): a parsed hint
`column op literal`. -/
structure Hint where
  column : Str
  op : CompOp
  literal : Str
deriving DecidableEq

/-- Lookup in a partition-value assignment. -/
def lookupStr : List (Str × Str) → Str → Option Str
  | [], _ => none
  | (k, v) :: kvs, key => if k = key then some v else lookupStr kvs key

/-- Lexicographic (string) comparison used for string-typed partition
values. -/
def lexLt : Str → Str → Bool
  | a :: as, b :: bs =>
    if a.val < b.val then true
    else if b.val < a.val then false
    else lexLt as bs
  | [], _ :: _ => true
  | _, [] => false

/-- Modelled from the spec (§4.3 Predicate Evaluator): decide one hint
against one file's partition values.  A hint referencing a non-partition
column is ignored (always true), and a file with no recorded value for the
column is never excluded — ambiguous hints must not exclude a file. -/
def evalHint (partCols : List Str) (pv : List (Str × Str)) (h : Hint) : Bool :=
  if partCols.contains h.column then
    match lookupStr pv h.column with
    | some v =>
      match h.op with
      | .eq => v = h.literal
      | .ne => v ≠ h.literal
      | .lt => lexLt v h.literal
      | .gt => lexLt h.literal v
      | .le => !lexLt h.literal v
      | .ge => !lexLt v h.literal
    | none => true
  else true

/-- Modelled from the spec (§4.3): `matches(partitionValues,
predicateHints[])`, the conjunction of all hints. -/
def matchesHints (partCols : List Str) (pv : List (Str × Str)) (hints : List Hint) : Bool :=
  hints.all (evalHint partCols pv)

/-- Modelled from the spec (§4.4 Query Planner): filter the candidate files
through the Predicate Evaluator, then truncate to at most `limitHint`
files when the hint is set, keeping the File Index's deterministic order. -/
def plan (files : List FileEntry) (partCols : List Str) (hints : List Hint)
    (limitHint : Option Nat) : List FileEntry :=
  let filtered := files.filter (fun f => matchesHints partCols f.partitionValues hints)
  match limitHint with
  | some n => filtered.take n
  | none => filtered

/-- Every partition column has a recorded value in every file (the File
Index invariant assumed of well-formed catalogs). -/
def wellFormedFiles (files : List FileEntry) (partCols : List Str) : Prop :=
  ∀ f ∈ files, ∀ c ∈ partCols, (lookupStr f.partitionValues c).isSome

/-- The key `'partitionValues'`. -/
def partitionValuesKey : Str := "partitionValues".data

/-- The key `'id'`. -/
def idKey : Str := "id".data

/-- The key `'url'`. -/
def urlKey : Str := "url".data

/-- The key `'size'`. -/
def sizeKey : Str := "size".data

/-- The key `'protocol'`. -/
def protocolKey : Str := "protocol".data

/-- The key `'metaData'`. -/
def metaDataKey : Str := "metaData".data

/-- The JSON payload of one `file` action in a query response. -/
def fileEntryToJson (f : FileEntry) : Json :=
  .obj [(idKey, .str f.id), (urlKey, .str f.url), (sizeKey, .num f.size),
    (partitionValuesKey, .obj (f.partitionValues.map (fun kv => (kv.1, Json.str kv.2))))]

/-- Modelled from the spec (§4.6 Response Encoder): serialize a list of
action objects as NDJSON, one compact JSON object per line. -/
def encodeNdjson (objs : List Json) : Str := joinNl (objs.map serJson)

/-- Modelled from the spec (§4.6): the NDJSON body of a query response — a
`protocol` line, a `metaData` line, then one `{"file": ...}` action per
planned file, in planner order. -/
def queryResponseBody (protocol metaData : Json) (files : List FileEntry) : Str :=
  encodeNdjson (Json.obj [(protocolKey, protocol)] :: Json.obj [(metaDataKey, metaData)] ::
    files.map (fun f => Json.obj [(fileKey, fileEntryToJson f)]))

/-! ### The data-skipping validations of `_test_data_skipping_impl`
(test_delta_sharing.py, lines 1309-1415) -/

/-- `f.get('partitionValues', {}).get(col)` as the Python value compared by
tests 9.2 and 9.3 (an absent key gives `None`, modelled as JSON null);
`Except.error` is the `AttributeError` raised on a non-dict. -/
def filePartValue (f : Json) (col : Str) : Except Unit Json :=
  match f with
  | .obj kvs =>
    match (lookupField kvs partitionValuesKey).getD (Json.obj []) with
    | .obj pvs => .ok ((lookupField pvs col).getD Json.null)
    | _ => .error ()
  | _ => .error ()

/-- Test 9.2 (line 1320): `[f for f in files if
f.get('partitionValues', {}).get(first_col) != first_val]`. -/
def invalidFiles92 (files : List Json) (c : Str) (v : Json) : Except Unit (List Json) :=
  match files with
  | [] => .ok []
  | f :: fs =>
    match filePartValue f c with
    | .error e => .error e
    | .ok val =>
      match invalidFiles92 fs c v with
      | .error e => .error e
      | .ok rest => .ok (if jeq val v then rest else f :: rest)

/-- Test 9.3 (lines 1369-1371): a file is invalid when it fails either
conjunct; Python's `or` short-circuits, so the second lookup only runs
when the first matched. -/
def invalidFiles93 (files : List Json) (c1 : Str) (v1 : Json) (c2 : Str) (v2 : Json) :
    Except Unit (List Json) :=
  match files with
  | [] => .ok []
  | f :: fs =>
    match filePartValue f c1 with
    | .error e => .error e
    | .ok val1 =>
      match (if jeq val1 v1 then (filePartValue f c2).map (fun val2 => jeq val2 v2)
             else Except.ok false) with
      | .error e => .error e
      | .ok bothMatch =>
        match invalidFiles93 fs c1 v1 c2 v2 with
        | .error e => .error e
        | .ok rest => .ok (if bothMatch then rest else f :: rest)

/-- What a data-skipping sub-test prints about its validation. -/
inductive Verdict where
  | fail
  | success
  | warnEmpty
  | error
deriving DecidableEq

/-- Test 9.2 (lines 1320-1330): FAIL when `invalid_files` is non-empty,
SUCCESS when it is empty and files were returned, the no-match warning
when the file list is empty; `error` models an exception reaching the
sub-test's `except` handler. -/
def test92Verdict (files : List Json) (c : Str) (v : Json) : Verdict :=
  match invalidFiles92 files c v with
  | .error _ => .error
  | .ok invalid =>
    if invalid.length ≠ 0 then .fail
    else if files.length > 0 then .success
    else .warnEmpty

/-- Test 9.3 (lines 1369-1381): the same verdict structure over the
two-conjunct invalid-file comprehension. -/
def test93Verdict (files : List Json) (c1 : Str) (v1 : Json) (c2 : Str) (v2 : Json) : Verdict :=
  match invalidFiles93 files c1 v1 c2 v2 with
  | .error _ => .error
  | .ok invalid =>
    if invalid.length ≠ 0 then .fail
    else if files.length > 0 then .success
    else .warnEmpty

/-- Test 9.4 (lines 1410-1413): `if len(files) <= 2` → SUCCESS else FAIL,
on the files parsed from the response text. -/
def test94Success (response_text : Str) : Bool :=
  (parse_files response_text).length ≤ 2

/-! ### Spec-modelled Protocol Negotiator (§4.5) -/

/-- Split on every occurrence of a separator character (Python
`str.split(sep)` for the one-character separators `;` and `,`). -/
def splitOnChar (sep : Char) : Str → List Str
  | [] => [[]]
  | c :: rest =>
    if c = sep then [] :: splitOnChar sep rest
    else
      match splitOnChar sep rest with
      | [] => [[c]]
      | l :: ls => (c :: l) :: ls

/-- `dropPre p s = some rest` exactly when `s = p ++ rest`. -/
def dropPre : Str → Str → Option Str
  | [], s => some s
  | _ :: _, [] => none
  | p :: ps, c :: cs => if c = p then dropPre ps cs else none

/-- Response formats of the Delta Sharing capabilities header. -/
inductive RespFormat where
  | parquet
  | delta
deriving DecidableEq

/-- A negotiated capability set: response format plus declared reader
features. -/
structure Capabilities where
  format : RespFormat
  readerFeatures : List Str
deriving DecidableEq

/-- Modelled from the spec (§4.5 Protocol Negotiator): parse a
`delta-sharing-capabilities` header of the form
`responseformat=<parquet|delta>[;readerfeatures=f1,f2,...]`; a missing
header defaults to parquet with no reader features. -/
def parseCapabilities (header : Option Str) : Capabilities :=
  match header with
  | none => ⟨.parquet, []⟩
  | some h =>
    let segs := splitOnChar ';' h
    let fmt :=
      match segs.findSome? (fun s => dropPre "responseformat=".data s) with
      | some v => if v = "delta".data then RespFormat.delta else RespFormat.parquet
      | none => RespFormat.parquet
    let feats :=
      match segs.findSome? (fun s => dropPre "readerfeatures=".data s) with
      | some v => splitOnChar ',' v
      | none => []
    ⟨fmt, feats⟩

/-- Outcome of protocol negotiation. -/
inductive NegotiationOutcome where
  | ok (caps : Capabilities)
  | unsupportedReaderFeatures
deriving DecidableEq

/-- Modelled from the spec (§4.5): if the table's data requires a reader
feature the negotiated capability set does not declare, negotiation fails
with `UnsupportedReaderFeatures`; the gateway never serves a response
shape the client cannot decode. -/
def negotiate (header : Option Str) (required : List Str) : NegotiationOutcome :=
  if required.all (fun f => (parseCapabilities header).readerFeatures.contains f) then
    .ok (parseCapabilities header)
  else .unsupportedReaderFeatures

/-! ### `_initialize_resources` (test_delta_sharing_protocol.py, lines 140-218) -/

/-- The key `'items'`. -/
def itemsKey : Str := "items".data

/-- The key `'name'`. -/
def nameKey : Str := "name".data

/-- The key `'schema'`. -/
def schemaKey : Str := "schema".data

/-- The discovery state of `DeltaSharingTester` touched by
`_initialize_resources` (initial values from `__init__`, lines 53-64). -/
structure InitState where
  discovered_share : Option Json
  discovered_schema : Option Json
  discovered_table : Option Json
  discovered_shares : Json
  discovered_tables : Json
  initialized : Bool

/-- The tester's state as constructed by `__init__`. -/
def initState0 : InitState := ⟨none, none, none, .arr [], .arr [], false⟩

/-- The schema-collection loop (lines 184-187): `for table in tables:
if 'schema' in table: schemas.add(table['schema'])`; the first raised
exception propagates. -/
def collectSchemas : List Json → Except Unit (List Json)
  | [] => .ok []
  | t :: ts =>
    match pyInStr schemaKey t with
    | .error e => .error e
    | .ok true =>
      match subscrStr t schemaKey with
      | .error e => .error e
      | .ok v => (collectSchemas ts).map (fun rest => v :: rest)
    | .ok false => collectSchemas ts

/-- From `_initialize_resources` (lines 140-218), as a function of the two
HTTP interactions it performs.  An interaction is `none` when
`requests.get` raised; otherwise `some (statusCode, body)` where a `none`
body models a `.json()` decode failure.  Every raised exception is caught
by the outer `except`, which returns `False` keeping whatever state had
already been assigned.  The result is (final tester state, return value). -/
def initialize_resources (s0 : InitState)
    (sharesResp tablesResp : Option (Nat × Option Json)) : InitState × Bool :=
  match sharesResp with
  | none => (s0, false)
  | some (st1, body1) =>
    if st1 ≠ 200 then (s0, false)
    else
      match body1 with
      | none => (s0, false)
      | some sd =>
        match pyInStr itemsKey sd with
        | .error _ => (s0, false)
        | .ok hasItems1 =>
          if !hasItems1 then (s0, false)
          else
            match subscrStr sd itemsKey with
            | .error _ => (s0, false)
            | .ok itemsJ =>
              match pyLen itemsJ with
              | .error _ => (s0, false)
              | .ok n1 =>
                if n1 = 0 then (s0, false)
                else
                  let s1 := { s0 with discovered_shares := itemsJ }
                  match subscrIdx itemsJ 0 with
                  | .error _ => (s1, false)
                  | .ok first =>
                    match subscrStr first nameKey with
                    | .error _ => (s1, false)
                    | .ok nameJ =>
                      let s2 := { s1 with discovered_share := some nameJ }
                      match tablesResp with
                      | none => (s2, false)
                      | some (st2, body2) =>
                        if st2 ≠ 200 then (s2, false)
                        else
                          match body2 with
                          | none => (s2, false)
                          | some td =>
                            match pyInStr itemsKey td with
                            | .error _ => (s2, false)
                            | .ok hasItems2 =>
                              if !hasItems2 then (s2, false)
                              else
                                match subscrStr td itemsKey with
                                | .error _ => (s2, false)
                                | .ok titemsJ =>
                                  match pyLen titemsJ with
                                  | .error _ => (s2, false)
                                  | .ok n2 =>
                                    if n2 = 0 then (s2, false)
                                    else
                                      let s3 := { s2 with discovered_tables := titemsJ }
                                      match pyIter titemsJ with
                                      | .error _ => (s3, false)
                                      | .ok titems =>
                                        match collectSchemas titems with
                                        | .error _ => (s3, false)
                                        | .ok schemas =>
                                          if schemas.length = 0 then (s3, false)
                                          else
                                            match subscrIdx titemsJ 0 with
                                            | .error _ => (s3, false)
                                            | .ok ft =>
                                              match jget ft schemaKey with
                                              | .error _ => (s3, false)
                                              | .ok schemaOpt =>
                                                match jget ft nameKey with
                                                | .error _ => (s3, false)
                                                | .ok tnameOpt =>
                                                  let s4 := { s3 with
                                                    discovered_schema := schemaOpt
                                                    discovered_table := tnameOpt }
                                                  if schemas.all isStrJson then
                                                    if (titems.take 5).all isObjJson then
                                                      ({ s4 with initialized := true }, true)
                                                    else (s4, false)
                                                  else (s4, false)

/-! ### `_execute_request` result accounting (test_delta_sharing_protocol.py,
lines 231-369) -/

/-- One entry of `self.test_results`. -/
structure TestResult where
  number : Str
  name : Str
  status : Str
  status_code : Option Nat
deriving DecidableEq

/-- The counters and result list of `DeltaSharingTester` touched by
`_execute_request`. -/
structure TesterCounters where
  test_count : Nat
  success_count : Nat
  fail_count : Nat
  test_results : List TestResult
deriving DecidableEq

/-- How one HTTP request turned out: a response with some status code, or
an exception (a raised request error, or the `ValueError` for an
unsupported HTTP method — both land in the same `except` block). -/
inductive ReqOutcome where
  | response (status : Nat)
  | exception
deriving DecidableEq

/-- `'PASSED'` -/
def statusPassed : Str := "PASSED".data

/-- `'WARNING'` -/
def statusWarning : Str := "WARNING".data

/-- `'FAILED'` -/
def statusFailed : Str := "FAILED".data

/-- From `_execute_request` (lines 231-369), reduced to its result
accounting: `test_count` increments on entry (line 244); a 2xx response
appends a PASSED entry and increments `success_count` (lines 335-345); any
other status appends WARNING and increments `fail_count` (lines 346-356);
an exception appends FAILED and increments `fail_count` (lines 358-369). -/
def execute_request (s : TesterCounters) (number name : Str) (outcome : ReqOutcome) :
    TesterCounters :=
  let s1 := { s with test_count := s.test_count + 1 }
  match outcome with
  | .response code =>
    if 200 ≤ code ∧ code < 300 then
      { s1 with
        success_count := s1.success_count + 1
        test_results := s1.test_results ++ [⟨number, name, statusPassed, some code⟩] }
    else
      { s1 with
        fail_count := s1.fail_count + 1
        test_results := s1.test_results ++ [⟨number, name, statusWarning, some code⟩] }
  | .exception =>
    { s1 with
      fail_count := s1.fail_count + 1
      test_results := s1.test_results ++ [⟨number, name, statusFailed, none⟩] }

/-- A whole run: fold `execute_request` over a sequence of outcomes. -/
def runRequests (s : TesterCounters) : List (Str × Str × ReqOutcome) → TesterCounters
  | [] => s
  | (number, name, outcome) :: rest =>
    runRequests (execute_request s number name outcome) rest

/-- The tester's counters as constructed by `__init__` (lines 49-61). -/
def counters0 : TesterCounters := ⟨0, 0, 0, []⟩

/-! ### Request headers (test_delta_sharing_protocol.py, lines 40-48 and
248-254) -/

/-- The key `'Authorization'`. -/
def authKey : Str := "Authorization".data

/-- The key `'Content-Type'`. -/
def contentTypeKey : Str := "Content-Type".data

/-- From `DeltaSharingTester.__init__` (lines 45-48): the base headers,
carrying the bearer token. -/
def baseHeaders (token : Str) : List (Str × Str) :=
  [(authKey, "Bearer ".data ++ token), (contentTypeKey, "application/json".data)]

/-- Header-dict lookup. -/
def lookupHdr : List (Str × Str) → Str → Option Str
  | [], _ => none
  | (k, v) :: kvs, key => if k = key then some v else lookupHdr kvs key

/-- From `_execute_request` (lines 248-251): `request_headers =
self.headers.copy(); request_headers.update(headers)` — a key found in the
per-test dict wins, every other key falls back to the base headers. -/
def mergedLookup (base upd : List (Str × Str)) (key : Str) : Option Str :=
  match lookupHdr upd key with
  | some v => some v
  | none => lookupHdr base key

/-- The capabilities header name used by the tests. -/
def dscKey : Str := "delta-sharing-capabilities".data

/-- The `includeEndStreamAction` header name. -/
def iesaKey : Str := "includeEndStreamAction".data

/-- The `Delta-Table-Version` header name. -/
def dtvKey : Str := "Delta-Table-Version".data

/-- Every per-test header dictionary passed to `_execute_request` anywhere
in test_delta_sharing_protocol.py (tests that pass no `headers` appear as
the empty dict, since `update` is then a no-op). -/
def allTestHeaderDicts : List (List (Str × Str)) :=
  [ [],
    [(dscKey, "responseformat=parquet".data), (dtvKey, "1".data)],
    [(dscKey, "responseformat=delta".data), (dtvKey, "1".data)],
    [(dscKey, "responseformat=parquet".data), (iesaKey, "true".data), (dtvKey, "1".data)],
    [(dscKey, "responseformat=delta".data), (iesaKey, "true".data), (dtvKey, "1".data)],
    [(dscKey, "responseformat=delta;readerfeatures=deletionvectors,columnmapping,timestampntz".data),
      (dtvKey, "1".data)],
    [(dscKey, "responseformat=delta;readerfeatures=deletionvectors".data), (dtvKey, "1".data)],
    [(dscKey, "responseformat=delta;readerfeatures=columnmapping".data), (dtvKey, "1".data)],
    [(dscKey, "responseformat=delta;readerfeatures=timestampntz".data), (dtvKey, "1".data)],
    [(dscKey, "responseformat=parquet".data)],
    [(dscKey, "responseformat=delta".data)],
    [(dscKey, "responseformat=delta;readerfeatures=deletionvectors,columnmapping,timestampntz".data)],
    [(dscKey, "responseformat=delta;readerfeatures=deletionvectors".data)],
    [(dscKey, "responseformat=delta;readerfeatures=columnmapping".data)],
    [(dscKey, "responseformat=delta;readerfeatures=timestampntz".data)] ]

/-! ### `load_profile_config` (test_delta_sharing.py, lines 1428-1488) -/

/-- The key `'endpoint'`. -/
def endpointKey : Str := "endpoint".data

/-- The key `'bearerToken'`. -/
def bearerTokenKey : Str := "bearerToken".data

/-- How a call to `load_profile_config` terminates. -/
inductive ProfileResult where
  | fileNotFound
  | jsonDecodeError
  | keyError (missing : List Str)
  | typeError
  | ok (config : Json)

/-- From test_delta_sharing.py `load_profile_config` (lines 1428-1488): the
filesystem is the explicit map `fs` (contents of each existing path).
Check existence, parse the contents as JSON (re-raising decode errors),
then evaluate `[field for field in ['endpoint', 'bearerToken'] if field
not in config]` — where Python's `in` raises `TypeError` on numbers,
booleans and null — and either raise `KeyError` or return the parsed
configuration unchanged. -/
def load_profile_config (fs : Str → Option Str) (profile_path : Str) : ProfileResult :=
  match fs profile_path with
  | none => .fileNotFound
  | some contents =>
    match json_loads contents with
    | none => .jsonDecodeError
    | some config =>
      match pyInStr endpointKey config with
      | .error _ => .typeError
      | .ok hasEndpoint =>
        match pyInStr bearerTokenKey config with
        | .error _ => .typeError
        | .ok hasToken =>
          let missing := (if hasEndpoint then [] else [endpointKey]) ++
            (if hasToken then [] else [bearerTokenKey])
          if missing.isEmpty then .ok config else .keyError missing

/-- Does a `load_profile_config` outcome raise `KeyError`? -/
def isKeyError : ProfileResult → Bool
  | .keyError _ => true
  | _ => false

/-! ### End of definitions; theorems follow. -/

mutual
/-- `jeq` decides equality of JSON values. -/
theorem jeq_iff (a b : Json) : jeq a b = true ↔ a = b := by
  cases a <;> cases b <;>
    simp only [jeq, Bool.and_eq_true, beq_iff_eq, Json.arr.injEq, Json.obj.injEq,
      Json.bool.injEq, Json.num.injEq, Json.str.injEq, reduceCtorEq] <;>
    first
      | rfl
      | simp
      | exact jeqList_iff _ _
      | exact jeqFields_iff _ _

/-- `jeqList` decides equality of JSON arrays. -/
theorem jeqList_iff (a b : List Json) : jeqList a b = true ↔ a = b := by
  cases a <;> cases b <;>
    simp only [jeqList, Bool.and_eq_true, List.cons.injEq, reduceCtorEq] <;>
    first
      | simp
      | exact Iff.intro
          (fun h => ⟨(jeq_iff _ _).mp h.1, (jeqList_iff _ _).mp h.2⟩)
          (fun h => ⟨(jeq_iff _ _).mpr h.1, (jeqList_iff _ _).mpr h.2⟩)

/-- `jeqFields` decides equality of JSON object field lists. -/
theorem jeqFields_iff (a b : List (Str × Json)) : jeqFields a b = true ↔ a = b := by
  cases a with
  | nil => cases b <;> simp [jeqFields]
  | cons x xs =>
    cases b with
    | nil => simp [jeqFields]
    | cons y ys =>
      obtain ⟨k, v⟩ := x
      obtain ⟨k2, v2⟩ := y
      simp only [jeqFields, Bool.and_eq_true, beq_iff_eq, List.cons.injEq, Prod.mk.injEq]
      exact Iff.intro
        (fun h => ⟨⟨h.1.1, (jeq_iff _ _).mp h.1.2⟩, (jeqFields_iff _ _).mp h.2⟩)
        (fun h => ⟨⟨h.1.1, (jeq_iff _ _).mpr h.1.2⟩, (jeqFields_iff _ _).mpr h.2⟩)
end

/-! ### Decimal digit round trip -/

theorem digitChar_isDigit (n : Nat) (h : n < 10) : (digitChar n).isDigit = true := by
  interval_cases n <;> decide

theorem digitChar_toNat (n : Nat) (h : n < 10) : (digitChar n).toNat = 48 + n := by
  interval_cases n <;> decide

theorem natToDigitsF_congr (n : Nat) :
    ∀ f1 f2, n < f1 → n < f2 → natToDigitsF f1 n = natToDigitsF f2 n := by
  induction n using Nat.strong_induction_on with
  | _ n ih =>
    intro f1 f2 h1 h2
    cases f1 with
    | zero => omega
    | succ g1 =>
      cases f2 with
      | zero => omega
      | succ g2 =>
        simp only [natToDigitsF]
        split
        · rfl
        · next h =>
          rw [ih (n / 10) (Nat.div_lt_self (by omega) (by omega)) g1 g2
            (by omega) (by omega)]

theorem natToDigits_eq (n : Nat) :
    natToDigits n =
      if n < 10 then [digitChar n]
      else natToDigits (n / 10) ++ [digitChar (n % 10)] := by
  show natToDigitsF (n + 1) n = _
  rw [natToDigitsF]
  split
  · rfl
  · next h =>
    rw [natToDigitsF_congr (n / 10) n (n / 10 + 1) (by omega) (by omega)]
    rfl

theorem natToDigits_ne_nil (n : Nat) : natToDigits n ≠ [] := by
  rw [natToDigits_eq]
  split <;> simp

theorem natToDigits_all_digit (n : Nat) : ∀ c ∈ natToDigits n, c.isDigit = true := by
  induction n using Nat.strong_induction_on with
  | _ n ih =>
    rw [natToDigits_eq]
    split
    · next h =>
      intro c hc
      simp only [List.mem_singleton] at hc
      subst hc
      exact digitChar_isDigit n h
    · intro c hc
      rcases List.mem_append.mp hc with h1 | h1
      · exact ih (n / 10) (Nat.div_lt_self (by omega) (by omega)) c h1
      · simp only [List.mem_singleton] at h1
        subst h1
        exact digitChar_isDigit (n % 10) (Nat.mod_lt n (by omega))

theorem natToDigits_head (n : Nat) :
    ∃ c t, natToDigits n = c :: t ∧ c.isDigit = true := by
  cases h : natToDigits n with
  | nil => exact absurd h (natToDigits_ne_nil n)
  | cons c t =>
    exact ⟨c, t, rfl, natToDigits_all_digit n c (h ▸ List.mem_cons_self c t)⟩

theorem natToDigits_last (n : Nat) :
    ∃ t d, natToDigits n = t ++ [digitChar d] ∧ d < 10 := by
  rw [natToDigits_eq]
  split
  · next h => exact ⟨[], n, rfl, h⟩
  · exact ⟨natToDigits (n / 10), n % 10, rfl, Nat.mod_lt n (by omega)⟩

theorem foldl_digits_natToDigits (n : Nat) :
    ∀ acc, (natToDigits n).foldl (fun acc c => acc * 10 + (c.toNat - 48)) acc =
      acc * 10 ^ (natToDigits n).length + n := by
  induction n using Nat.strong_induction_on with
  | _ n ih =>
    intro acc
    rw [natToDigits_eq]
    split
    · next h =>
      simp [List.foldl_cons, List.foldl_nil, digitChar_toNat n h]
    · rw [List.foldl_append,
        ih (n / 10) (Nat.div_lt_self (by omega) (by omega))]
      simp only [List.foldl_cons, List.foldl_nil,
        digitChar_toNat (n % 10) (Nat.mod_lt n (by omega)),
        List.length_append, List.length_singleton, pow_succ]
      have hdm := Nat.div_add_mod n 10
      ring_nf
      omega

theorem digitsToNat_natToDigits (n : Nat) : digitsToNat (natToDigits n) = n := by
  simp [digitsToNat, foldl_digits_natToDigits n 0]

theorem takeWhile_append_all (p : Char → Bool) (l1 l2 : Str)
    (h1 : ∀ c ∈ l1, p c = true)
    (h2 : ∀ c, l2.head? = some c → p c = false) :
    (l1 ++ l2).takeWhile p = l1 := by
  induction l1 with
  | nil =>
    simp only [List.nil_append]
    cases l2 with
    | nil => rfl
    | cons c cs => simp [List.takeWhile_cons, h2 c rfl]
  | cons c cs ih =>
    simp only [List.cons_append, List.takeWhile_cons, h1 c (List.mem_cons_self c cs)]
    simp [ih (fun x hx => h1 x (List.mem_cons_of_mem c hx))]

theorem dropWhile_append_all (p : Char → Bool) (l1 l2 : Str)
    (h1 : ∀ c ∈ l1, p c = true)
    (h2 : ∀ c, l2.head? = some c → p c = false) :
    (l1 ++ l2).dropWhile p = l2 := by
  induction l1 with
  | nil =>
    simp only [List.nil_append]
    cases l2 with
    | nil => rfl
    | cons c cs => simp [List.dropWhile_cons, h2 c rfl]
  | cons c cs ih =>
    simp only [List.cons_append, List.dropWhile_cons, h1 c (List.mem_cons_self c cs)]
    simp [ih (fun x hx => h1 x (List.mem_cons_of_mem c hx))]

theorem headDigit_false_head? (rest : Str) (h : headDigit rest = false) :
    ∀ c, rest.head? = some c → c.isDigit = false := by
  intro c hc
  cases rest with
  | nil => simp at hc
  | cons r rs =>
    simp only [List.head?_cons, Option.some.injEq] at hc
    subst hc
    simpa [headDigit] using h

/-! ### String escaping round trip -/

theorem escapeChar_quote : escapeChar '"' = ['\\', '"'] := by decide

theorem escapeChar_backslash : escapeChar '\\' = ['\\', '\\'] := by decide

theorem escapeChar_nl : escapeChar '\n' = ['\\', 'n'] := by decide

theorem escapeChar_cr : escapeChar '\r' = ['\\', 'r'] := by decide

theorem escapeChar_tab : escapeChar '\t' = ['\\', 't'] := by decide

theorem parseStr_escape (s : Str) : ∀ rest, parseStr (escapeStr s ++ '"' :: rest) = some (s, rest) := by
  induction s with
  | nil =>
    intro rest
    simp only [escapeStr, List.nil_append]
    rw [parseStr.eq_def]
    simp
  | cons a s ih =>
    intro rest
    by_cases h1 : a = '"'
    · subst h1
      simp only [escapeStr, escapeChar_quote, List.cons_append, List.nil_append]
      rw [parseStr.eq_def]
      simp [unescapeChar, ih]
    · by_cases h2 : a = '\\'
      · subst h2
        simp only [escapeStr, escapeChar_backslash, List.cons_append, List.nil_append]
        rw [parseStr.eq_def]
        simp [unescapeChar, ih]
      · by_cases h3 : a = '\n'
        · subst h3
          simp only [escapeStr, escapeChar_nl, List.cons_append, List.nil_append]
          rw [parseStr.eq_def]
          simp [unescapeChar, ih]
        · by_cases h4 : a = '\r'
          · subst h4
            simp only [escapeStr, escapeChar_cr, List.cons_append, List.nil_append]
            rw [parseStr.eq_def]
            simp [unescapeChar, ih]
          · by_cases h5 : a = '\t'
            · subst h5
              simp only [escapeStr, escapeChar_tab, List.cons_append, List.nil_append]
              rw [parseStr.eq_def]
              simp [unescapeChar, ih]
            · simp only [escapeStr, escapeChar, if_neg h1, if_neg h2, if_neg h3,
                if_neg h4, if_neg h5, List.cons_append, List.nil_append]
              rw [parseStr.eq_def]
              simp [h1, h2, ih]

theorem escapeChar_no_nl (c : Char) : '\n' ∉ escapeChar c := by
  unfold escapeChar
  split
  · simp
  · split
    · simp
    · split
      · simp
      · split
        · simp
        · split
          · simp
          · next h3 _ _ => simp [List.mem_singleton]; exact fun hx => h3 hx.symm

theorem escapeStr_no_nl (s : Str) : '\n' ∉ escapeStr s := by
  induction s with
  | nil => simp [escapeStr]
  | cons c cs ih =>
    simp only [escapeStr, List.mem_append]
    rintro (h | h)
    · exact escapeChar_no_nl c h
    · exact ih h

/-! ### Shape of serialized JSON -/

theorem isDigit_not_space (c : Char) (h : c.isDigit = true) : isPySpace c = false := by
  by_contra hc
  rw [Bool.not_eq_false] at hc
  unfold isPySpace at hc
  simp only [Bool.or_eq_true, decide_eq_true_eq] at hc
  rcases hc with ((((h1 | h1) | h1) | h1) | h1) | h1 <;> subst h1 <;>
    exact absurd h (by decide)

theorem goodStart_facts (c : Char) (h : goodStart c) :
    c ≠ ']' ∧ c ≠ '}' ∧ c ≠ ',' ∧ c ≠ ':' ∧ isPySpace c = false := by
  rcases h with hd | h1 | h1 | h1 | h1 | h1 | h1 | h1
  · refine ⟨?_, ?_, ?_, ?_, isDigit_not_space c hd⟩ <;>
      (intro he; subst he; exact absurd hd (by decide))
  all_goals subst h1; refine ⟨by decide, by decide, by decide, by decide, by decide⟩

theorem serJson_head (j : Json) : ∃ c t, serJson j = c :: t ∧ goodStart c := by
  cases j with
  | null => exact ⟨'n', _, rfl, Or.inr (Or.inl rfl)⟩
  | bool b =>
    cases b with
    | true => exact ⟨'t', _, rfl, Or.inr (Or.inr (Or.inl rfl))⟩
    | false => exact ⟨'f', _, rfl, Or.inr (Or.inr (Or.inr (Or.inl rfl)))⟩
  | num n =>
    rw [serJson, serInt]
    split
    · exact ⟨'-', _, rfl, Or.inr (Or.inr (Or.inr (Or.inr (Or.inr (Or.inr (Or.inr rfl))))))⟩
    · obtain ⟨c, t, hct, hc⟩ := natToDigits_head n.natAbs
      exact ⟨c, t, hct, Or.inl hc⟩
  | str s => exact ⟨'"', _, rfl, Or.inr (Or.inr (Or.inr (Or.inr (Or.inl rfl))))⟩
  | arr xs => exact ⟨'[', _, rfl, Or.inr (Or.inr (Or.inr (Or.inr (Or.inr (Or.inl rfl)))))⟩
  | obj kvs => exact ⟨'{', _, rfl, Or.inr (Or.inr (Or.inr (Or.inr (Or.inr (Or.inr (Or.inl rfl))))))⟩

theorem digitChar_not_space (d : Nat) (h : d < 10) : isPySpace (digitChar d) = false := by
  interval_cases d <;> decide

theorem serJson_last (j : Json) : ∃ t c, serJson j = t ++ [c] ∧ isPySpace c = false := by
  cases j with
  | null => exact ⟨['n', 'u', 'l'], 'l', rfl, by decide⟩
  | bool b =>
    cases b with
    | true => exact ⟨['t', 'r', 'u'], 'e', rfl, by decide⟩
    | false => exact ⟨['f', 'a', 'l', 's'], 'e', rfl, by decide⟩
  | num n =>
    rw [serJson, serInt]
    obtain ⟨t, d, htd, hd⟩ := natToDigits_last n.natAbs
    split
    · exact ⟨'-' :: t, digitChar d, by rw [htd]; rfl, digitChar_not_space d hd⟩
    · exact ⟨t, digitChar d, htd, digitChar_not_space d hd⟩
  | str s =>
    refine ⟨'"' :: escapeStr s, '"', ?_, by decide⟩
    simp [serJson, serStr]
  | arr xs => exact ⟨'[' :: serElems xs, ']', by simp [serJson], by decide⟩
  | obj kvs => exact ⟨'{' :: serFields kvs, '}', by simp [serJson], by decide⟩

theorem serJson_ne_nil (j : Json) : serJson j ≠ [] := by
  obtain ⟨c, t, h, -⟩ := serJson_head j
  simp [h]

/-! ### Fuel-size positivity and newline-freeness -/

theorem jsize_pos (j : Json) : 1 ≤ jsize j := by
  cases j <;> simp [jsize]

theorem esize_pos (xs : List Json) : 1 ≤ esize xs := by
  cases xs <;> simp [esize]

theorem osize_pos (kvs : List (Str × Json)) : 1 ≤ osize kvs := by
  cases kvs with
  | nil => simp [osize]
  | cons kv kvs => obtain ⟨k, v⟩ := kv; simp [osize]

theorem serInt_no_nl (n : Int) : '\n' ∉ serInt n := by
  unfold serInt
  have hdig := natToDigits_all_digit n.natAbs
  split
  · intro hmem
    rcases List.mem_cons.mp hmem with h | h
    · exact absurd h.symm (by decide)
    · exact absurd (hdig '\n' h) (by decide)
  · intro hmem
    exact absurd (hdig '\n' hmem) (by decide)

theorem no_nl_all (n : Nat) :
    (∀ j, jsize j ≤ n → '\n' ∉ serJson j) ∧
    (∀ xs, esize xs ≤ n → '\n' ∉ serElems xs) ∧
    (∀ kvs, osize kvs ≤ n → '\n' ∉ serFields kvs) := by
  induction n using Nat.strong_induction_on with
  | _ n ih =>
    refine ⟨?_, ?_, ?_⟩
    · intro j hsz
      cases j with
      | null => decide
      | bool b => cases b <;> decide
      | num m => exact serInt_no_nl m
      | str s => simp [serJson, serStr, escapeStr_no_nl s]
      | arr xs =>
        have hlt : esize xs < n := by
          have := esize_pos xs; simp [jsize] at hsz; omega
        simp [serJson, (ih (esize xs) hlt).2.1 xs le_rfl]
      | obj kvs =>
        have hlt : osize kvs < n := by
          have := osize_pos kvs; simp [jsize] at hsz; omega
        simp [serJson, (ih (osize kvs) hlt).2.2 kvs le_rfl]
    · intro xs hsz
      cases xs with
      | nil => simp [serElems]
      | cons x ys =>
        cases ys with
        | nil =>
          have hlt : jsize x < n := by
            simp [esize] at hsz; omega
          simpa [serElems] using (ih (jsize x) hlt).1 x le_rfl
        | cons y zs =>
          have hlt1 : jsize x < n := by
            simp [esize] at hsz; omega
          have hlt2 : esize (y :: zs) < n := by
            simp only [esize] at hsz ⊢; omega
          simp [serElems, (ih (jsize x) hlt1).1 x le_rfl,
            (ih (esize (y :: zs)) hlt2).2.1 (y :: zs) le_rfl]
    · intro kvs hsz
      cases kvs with
      | nil => simp [serFields]
      | cons kv kvs2 =>
        obtain ⟨k, v⟩ := kv
        cases kvs2 with
        | nil =>
          have hlt : jsize v < n := by
            simp [osize] at hsz; omega
          simp [serFields, serStr, escapeStr_no_nl k, (ih (jsize v) hlt).1 v le_rfl]
        | cons kv2 kvs3 =>
          have hlt1 : jsize v < n := by
            simp [osize] at hsz; omega
          have hlt2 : osize (kv2 :: kvs3) < n := by
            simp only [osize] at hsz ⊢; omega
          simp [serFields, serStr, escapeStr_no_nl k, (ih (jsize v) hlt1).1 v le_rfl,
            (ih (osize (kv2 :: kvs3)) hlt2).2.2 (kv2 :: kvs3) le_rfl]

theorem serJson_no_nl (j : Json) : '\n' ∉ serJson j :=
  (no_nl_all (jsize j)).1 j le_rfl

/-! ### Fuel bounds: the serialized length plus one is enough parsing fuel -/

theorem size_le_len_all (n : Nat) :
    (∀ j, jsize j ≤ n → jsize j ≤ (serJson j).length) ∧
    (∀ xs, esize xs ≤ n → esize xs ≤ (serElems xs).length + 1) ∧
    (∀ kvs, osize kvs ≤ n → osize kvs ≤ (serFields kvs).length + 1) := by
  induction n using Nat.strong_induction_on with
  | _ n ih =>
    refine ⟨?_, ?_, ?_⟩
    · intro j hsz
      cases j with
      | null => decide
      | bool b => cases b <;> decide
      | num m =>
        have h1 : serInt m ≠ [] := by
          unfold serInt
          split
          · simp
          · exact natToDigits_ne_nil m.natAbs
        have h2 : 1 ≤ (serInt m).length := by
          cases he : serInt m with
          | nil => exact absurd he h1
          | cons c t => simp
        simpa [jsize, serJson] using h2
      | str s => simp [jsize, serJson, serStr]
      | arr xs =>
        have hlt : esize xs < n := by
          have := esize_pos xs; simp [jsize] at hsz; omega
        have hx := (ih (esize xs) hlt).2.1 xs le_rfl
        simp only [jsize, serJson, List.length_cons, List.length_append,
          List.length_singleton]
        omega
      | obj kvs =>
        have hlt : osize kvs < n := by
          have := osize_pos kvs; simp [jsize] at hsz; omega
        have hx := (ih (osize kvs) hlt).2.2 kvs le_rfl
        simp only [jsize, serJson, List.length_cons, List.length_append,
          List.length_singleton]
        omega
    · intro xs hsz
      cases xs with
      | nil => simp [esize, serElems]
      | cons x ys =>
        cases ys with
        | nil =>
          have hlt : jsize x < n := by
            simp [esize] at hsz; omega
          have hx := (ih (jsize x) hlt).1 x le_rfl
          have hne : 1 ≤ (serJson x).length := by
            cases he : serJson x with
            | nil => exact absurd he (serJson_ne_nil x)
            | cons c t => simp
          simp only [esize, serElems]
          omega
        | cons y zs =>
          have hlt1 : jsize x < n := by
            simp [esize] at hsz; omega
          have hlt2 : esize (y :: zs) < n := by
            simp only [esize] at hsz ⊢; omega
          have hx := (ih (jsize x) hlt1).1 x le_rfl
          have hy := (ih (esize (y :: zs)) hlt2).2.1 (y :: zs) le_rfl
          rw [esize, serElems]
          simp only [List.length_append, List.length_cons]
          omega
    · intro kvs hsz
      cases kvs with
      | nil => simp [osize, serFields]
      | cons kv kvs2 =>
        obtain ⟨k, v⟩ := kv
        cases kvs2 with
        | nil =>
          have hlt : jsize v < n := by
            simp [osize] at hsz; omega
          have hv := (ih (jsize v) hlt).1 v le_rfl
          have hne : 1 ≤ (serJson v).length := by
            cases he : serJson v with
            | nil => exact absurd he (serJson_ne_nil v)
            | cons c t => simp
          simp only [osize, serFields, serStr, List.length_append, List.length_cons]
          omega
        | cons kv2 kvs3 =>
          have hlt1 : jsize v < n := by
            simp [osize] at hsz; omega
          have hlt2 : osize (kv2 :: kvs3) < n := by
            simp only [osize] at hsz ⊢; omega
          have hv := (ih (jsize v) hlt1).1 v le_rfl
          have hr := (ih (osize (kv2 :: kvs3)) hlt2).2.2 (kv2 :: kvs3) le_rfl
          rw [osize, serFields]
          simp only [serStr, List.length_append, List.length_cons]
          omega

theorem jsize_le_len (j : Json) : jsize j ≤ (serJson j).length :=
  (size_le_len_all (jsize j)).1 j le_rfl

/-! ### Stripping leaves serialized values unchanged -/

theorem dropWhile_eq_self (p : Char → Bool) (l : Str)
    (h : ∀ c, l.head? = some c → p c = false) : l.dropWhile p = l := by
  cases l with
  | nil => rfl
  | cons c cs => simp [List.dropWhile_cons, h c rfl]

theorem pyStrip_eq_self (cs : Str)
    (h1 : ∀ c, cs.head? = some c → isPySpace c = false)
    (h2 : ∀ c, cs.getLast? = some c → isPySpace c = false) : pyStrip cs = cs := by
  unfold pyStrip
  rw [dropWhile_eq_self isPySpace cs h1]
  rw [dropWhile_eq_self isPySpace cs.reverse (fun c hc => h2 c (by rwa [List.head?_reverse] at hc))]
  exact List.reverse_reverse cs

theorem pyStrip_serJson (j : Json) : pyStrip (serJson j) = serJson j := by
  apply pyStrip_eq_self
  · intro c hc
    obtain ⟨c2, t, hct, hgs⟩ := serJson_head j
    rw [hct] at hc
    simp only [List.head?_cons, Option.some.injEq] at hc
    subst hc
    exact (goodStart_facts _ hgs).2.2.2.2
  · intro c hc
    obtain ⟨t, c2, hct, hsp⟩ := serJson_last j
    rw [hct] at hc
    simp only [List.getLast?_concat, Option.some.injEq] at hc
    subst hc
    exact hsp

theorem parse_ser_all (fuel : Nat) :
    (∀ j rest, jsize j ≤ fuel → headDigit rest = false →
      parseVal fuel (serJson j ++ rest) = some (j, rest)) ∧
    (∀ xs rest, esize xs ≤ fuel →
      parseElems fuel (serElems xs ++ ']' :: rest) = some (xs, rest)) ∧
    (∀ kvs rest, osize kvs ≤ fuel →
      parseFields fuel (serFields kvs ++ '}' :: rest) = some (kvs, rest)) := by
  induction fuel using Nat.strong_induction_on with
  | _ fuel ih =>
    cases fuel with
    | zero =>
      refine ⟨?_, ?_, ?_⟩
      · intro j rest h _; have := jsize_pos j; omega
      · intro xs rest h; have := esize_pos xs; omega
      · intro kvs rest h; have := osize_pos kvs; omega
    | succ f =>
      have IH1 := (ih f (Nat.lt_succ_self f)).1
      have IH2 := (ih f (Nat.lt_succ_self f)).2.1
      have IH3 := (ih f (Nat.lt_succ_self f)).2.2
      refine ⟨?_, ?_, ?_⟩
      · intro j rest hsz hrd
        cases j with
        | null =>
          simp only [serJson, nullLit, List.cons_append, List.nil_append]
          rw [parseVal.eq_def]
          simp
        | bool b =>
          cases b with
          | true =>
            simp only [serJson, trueLit, List.cons_append, List.nil_append]
            rw [parseVal.eq_def]
            simp
          | false =>
            simp only [serJson, falseLit, List.cons_append, List.nil_append]
            rw [parseVal.eq_def]
            simp
        | num m =>
          have hl2 := headDigit_false_head? rest hrd
          by_cases hm : m < 0
          · simp only [serJson, serInt, if_pos hm, List.cons_append]
            obtain ⟨c, t, hct, hc⟩ := natToDigits_head m.natAbs
            have htw := takeWhile_append_all Char.isDigit (natToDigits m.natAbs) rest
              (natToDigits_all_digit _) hl2
            have hdw := dropWhile_append_all Char.isDigit (natToDigits m.natAbs) rest
              (natToDigits_all_digit _) hl2
            have hie : ((natToDigits m.natAbs ++ rest).takeWhile Char.isDigit).isEmpty = false := by
              rw [htw, hct]; rfl
            have hnum : -((digitsToNat ((natToDigits m.natAbs ++ rest).takeWhile Char.isDigit) : Nat) : Int) = m := by
              rw [htw, digitsToNat_natToDigits]; omega
            rw [parseVal.eq_def]
            simp [hie, hdw, hnum]
          · simp only [serJson, serInt, if_neg hm]
            obtain ⟨c, t, hct, hc⟩ := natToDigits_head m.natAbs
            have htw := takeWhile_append_all Char.isDigit (natToDigits m.natAbs) rest
              (natToDigits_all_digit _) hl2
            have hdw := dropWhile_append_all Char.isDigit (natToDigits m.natAbs) rest
              (natToDigits_all_digit _) hl2
            have hnum : ((digitsToNat (natToDigits m.natAbs) : Nat) : Int) = m := by
              rw [digitsToNat_natToDigits]; omega
            rw [hct] at htw hdw hnum ⊢
            rw [List.cons_append] at htw hdw ⊢
            rw [parseVal.eq_def]
            simp [hc, htw, hdw, hnum]
        | str s =>
          simp only [serJson, serStr, List.cons_append, List.append_assoc, List.nil_append]
          rw [parseVal.eq_def]
          simp [parseStr_escape s rest]
        | arr xs =>
          have hx : esize xs ≤ f := by simp [jsize] at hsz; omega
          simp only [serJson, List.cons_append, List.append_assoc, List.singleton_append]
          rw [parseVal.eq_def]
          simp [IH2 xs rest hx]
        | obj kvs =>
          have hx : osize kvs ≤ f := by simp [jsize] at hsz; omega
          simp only [serJson, List.cons_append, List.append_assoc, List.singleton_append]
          rw [parseVal.eq_def]
          simp [IH3 kvs rest hx]
      · intro xs rest hsz
        cases xs with
        | nil =>
          simp only [serElems, List.nil_append]
          rw [parseElems.eq_def]
          simp
        | cons x ys =>
          cases ys with
          | nil =>
            obtain ⟨c, t, hct, hgs⟩ := serJson_head x
            have hne := (goodStart_facts c hgs).1
            have hx : jsize x ≤ f := by simp [esize] at hsz; omega
            have hv : parseVal f (c :: (t ++ ']' :: rest)) = some (x, ']' :: rest) := by
              rw [← List.cons_append, ← hct]
              exact IH1 x (']' :: rest) hx (by simp [headDigit])
            simp only [serElems]
            rw [hct, List.cons_append, parseElems.eq_def]
            simp [hne, hv]
          | cons y zs =>
            obtain ⟨c, t, hct, hgs⟩ := serJson_head x
            have hne := (goodStart_facts c hgs).1
            have hx : jsize x ≤ f := by simp [esize] at hsz; omega
            have hy : esize (y :: zs) ≤ f := by
              simp only [esize] at hsz ⊢; omega
            have hv : parseVal f (c :: (t ++ ',' :: (serElems (y :: zs) ++ ']' :: rest))) =
                some (x, ',' :: (serElems (y :: zs) ++ ']' :: rest)) := by
              rw [← List.cons_append, ← hct]
              exact IH1 x _ hx (by simp [headDigit])
            have he := IH2 (y :: zs) rest hy
            simp only [serElems, List.append_assoc, List.cons_append]
            rw [hct, List.cons_append, parseElems.eq_def]
            simp [hne, hv, he]
      · intro kvs rest hsz
        cases kvs with
        | nil =>
          simp only [serFields, List.nil_append]
          rw [parseFields.eq_def]
          simp
        | cons kv kvs2 =>
          obtain ⟨k, v⟩ := kv
          cases kvs2 with
          | nil =>
            have hx : jsize v ≤ f := by simp [osize] at hsz; omega
            have hv : parseVal f (serJson v ++ '}' :: rest) = some (v, '}' :: rest) :=
              IH1 v _ hx (by simp [headDigit])
            have hk := parseStr_escape k (':' :: (serJson v ++ '}' :: rest))
            simp only [serFields, serStr, List.cons_append, List.append_assoc,
              List.nil_append]
            rw [parseFields.eq_def]
            simp [hk, hv]
          | cons kv2 kvs3 =>
            have hx : jsize v ≤ f := by simp [osize] at hsz; omega
            have hr : osize (kv2 :: kvs3) ≤ f := by
              simp only [osize] at hsz ⊢; omega
            have hv : parseVal f (serJson v ++ ',' :: (serFields (kv2 :: kvs3) ++ '}' :: rest)) =
                some (v, ',' :: (serFields (kv2 :: kvs3) ++ '}' :: rest)) :=
              IH1 v _ hx (by simp [headDigit])
            have hk := parseStr_escape k
              (':' :: (serJson v ++ ',' :: (serFields (kv2 :: kvs3) ++ '}' :: rest)))
            have hf := IH3 (kv2 :: kvs3) rest hr
            simp only [serFields, serStr, List.cons_append, List.append_assoc,
              List.nil_append]
            rw [parseFields.eq_def]
            simp [hk, hv, hf]


theorem json_loads_serJson (j : Json) : json_loads (serJson j) = some j := by
  unfold json_loads
  rw [pyStrip_serJson]
  have hfuel : jsize j ≤ (serJson j).length + 1 := le_trans (jsize_le_len j) (by omega)
  have h := (parse_ser_all ((serJson j).length + 1)).1 j [] hfuel rfl
  rw [List.append_nil] at h
  simp [h]

/-! ### Splitting and joining NDJSON lines -/

theorem splitNl_nlFree (l : Str) (h : '\n' ∉ l) : splitNl l = [l] := by
  induction l with
  | nil => rfl
  | cons c cs ih =>
    have hc : ¬(c = '\n') := fun he => h (he ▸ List.mem_cons_self c cs)
    have hcs : '\n' ∉ cs := fun hm => h (List.mem_cons_of_mem c hm)
    rw [splitNl, if_neg hc, ih hcs]

theorem splitNl_append_nl (l t : Str) (h : '\n' ∉ l) :
    splitNl (l ++ '\n' :: t) = l :: splitNl t := by
  induction l with
  | nil => simp [splitNl]
  | cons c cs ih =>
    have hc : ¬(c = '\n') := fun he => h (he ▸ List.mem_cons_self c cs)
    have hcs : '\n' ∉ cs := fun hm => h (List.mem_cons_of_mem c hm)
    rw [List.cons_append, splitNl, if_neg hc, ih hcs]

theorem splitNl_joinNl (lines : List Str) (hne : lines ≠ [])
    (hfree : ∀ l ∈ lines, '\n' ∉ l) : splitNl (joinNl lines) = lines := by
  induction lines with
  | nil => exact absurd rfl hne
  | cons l ls ih =>
    cases ls with
    | nil => exact splitNl_nlFree l (hfree l (List.mem_cons_self l []))
    | cons l2 ls2 =>
      rw [joinNl, splitNl_append_nl l _ (hfree l (List.mem_cons_self l _))]
      rw [ih (by simp) (fun x hx => hfree x (List.mem_cons_of_mem l hx))]

theorem joinNl_head (c : Char) (t : Str) (ls : List Str) :
    ∃ y, joinNl ((c :: t) :: ls) = c :: y := by
  cases ls with
  | nil => exact ⟨t, rfl⟩
  | cons l2 ls2 => exact ⟨t ++ '\n' :: joinNl (l2 :: ls2), rfl⟩

theorem joinNl_last (lines : List Str) (hne : lines ≠ [])
    (hend : ∀ l ∈ lines, ∃ t c, l = t ++ [c] ∧ isPySpace c = false) :
    ∃ t c, joinNl lines = t ++ [c] ∧ isPySpace c = false := by
  induction lines with
  | nil => exact absurd rfl hne
  | cons l ls ih =>
    cases ls with
    | nil =>
      obtain ⟨t, c, h1, h2⟩ := hend l (List.mem_cons_self l [])
      exact ⟨t, c, h1, h2⟩
    | cons l2 ls2 =>
      obtain ⟨t, c, h1, h2⟩ := ih (by simp)
        (fun x hx => hend x (List.mem_cons_of_mem l hx))
      refine ⟨l ++ '\n' :: t, c, ?_, h2⟩
      rw [joinNl, h1]
      simp

/-- The serialized lines of a list of JSON values survive `pyStrip` and
`splitNl` untouched. -/
theorem strip_split_encode (objs : List Json) (hne : objs ≠ []) :
    splitNl (pyStrip (joinNl (objs.map serJson))) = objs.map serJson := by
  have hfree : ∀ l ∈ objs.map serJson, '\n' ∉ l := by
    intro l hl
    obtain ⟨j, _, hj⟩ := List.mem_map.mp hl
    exact hj ▸ serJson_no_nl j
  have hmapne : objs.map serJson ≠ [] := by
    cases objs with
    | nil => exact absurd rfl hne
    | cons o os => simp
  obtain ⟨o, os, ho⟩ : ∃ o os, objs = o :: os := by
    cases objs with
    | nil => exact absurd rfl hne
    | cons o os => exact ⟨o, os, rfl⟩
  have hstrip : pyStrip (joinNl (objs.map serJson)) = joinNl (objs.map serJson) := by
    apply pyStrip_eq_self
    · intro c hc
      obtain ⟨c2, t, hct, hgs⟩ := serJson_head o
      subst ho
      rw [List.map_cons, hct] at hc
      obtain ⟨y, hy⟩ := joinNl_head c2 t (os.map serJson)
      rw [hy] at hc
      simp only [List.head?_cons, Option.some.injEq] at hc
      subst hc
      exact (goodStart_facts _ hgs).2.2.2.2
    · intro c hc
      obtain ⟨t, c2, hct, hsp⟩ := joinNl_last (objs.map serJson) hmapne
        (by
          intro l hl
          obtain ⟨j, _, hj⟩ := List.mem_map.mp hl
          exact hj ▸ serJson_last j)
      rw [hct] at hc
      simp only [List.getLast?_concat, Option.some.injEq] at hc
      subst hc
      exact hsp
  rw [hstrip, splitNl_joinNl (objs.map serJson) hmapne hfree]

theorem foldl_skip_collect {α β : Type} (p : α → Bool) (f : α → β) (l : List α) :
    ∀ init : List β,
      l.foldl (fun acc x => if p x then acc else acc ++ [f x]) init =
        init ++ (l.filter (fun x => !p x)).map f := by
  induction l with
  | nil => intro init; simp
  | cons x xs ih =>
    intro init
    by_cases hp : p x <;> simp [List.foldl_cons, List.filter_cons, hp, ih]

/-- `_parse_ndjson` keeps exactly the non-blank lines, in order, mapping
each to its parsed value or to the parse-error dictionary. -/
theorem parse_ndjson_eq_map_filter (text : Str) :
    parse_ndjson text =
      ((splitNl (pyStrip text)).filter
        (fun l => !(pyStrip l).isEmpty)).map lineValue := by
  unfold parse_ndjson
  have hbody : ∀ (lines : List Json) (line : Str),
      (if (pyStrip line).isEmpty then lines
       else
        match json_loads line with
        | some j => lines ++ [j]
        | none => lines ++ [parseErrorObj line]) =
      (if (pyStrip line).isEmpty then lines else lines ++ [lineValue line]) := by
    intro lines line
    by_cases h : (pyStrip line).isEmpty
    · simp [h]
    · simp only [if_neg h, lineValue]
      cases json_loads line <;> rfl
  simp only [hbody]
  exact foldl_skip_collect _ lineValue (splitNl (pyStrip text)) []

/-! ### `parse_files` characterization and encoder round trips -/

theorem foldl_option_collect (l : List Str) :
    ∀ init : List Json,
      l.foldl (fun acc x =>
        match parseFileLine x with
        | some v => acc ++ [v]
        | none => acc) init =
        init ++ l.filterMap parseFileLine := by
  induction l with
  | nil => intro init; simp
  | cons x xs ih =>
    intro init
    cases hg : parseFileLine x <;> simp [List.foldl_cons, List.filterMap_cons, hg, ih]

theorem parse_files_eq_filterMap (text : Str) :
    parse_files text = (splitNl (pyStrip text)).filterMap parseFileLine := by
  unfold parse_files
  have h := foldl_option_collect (splitNl (pyStrip text)) []
  rw [List.nil_append] at h
  exact h

theorem parseFileLine_serJson_file (f : Json) :
    parseFileLine (serJson (Json.obj [(fileKey, f)])) = some f := by
  unfold parseFileLine
  rw [json_loads_serJson]
  simp [pyInStr, lookupField, subscrStr]

theorem parseFileLine_serJson_noFile (key : Str) (v : Json) (hk : key ≠ fileKey) :
    parseFileLine (serJson (Json.obj [(key, v)])) = none := by
  unfold parseFileLine
  rw [json_loads_serJson]
  simp [pyInStr, lookupField, hk]

theorem parse_files_encode (protocol metaData : Json) (files : List FileEntry) :
    parse_files (queryResponseBody protocol metaData files) =
      files.map fileEntryToJson := by
  rw [parse_files_eq_filterMap]
  unfold queryResponseBody encodeNdjson
  rw [strip_split_encode _ (by simp)]
  simp only [List.map_cons, List.filterMap_cons,
    parseFileLine_serJson_noFile protocolKey protocol (by decide),
    parseFileLine_serJson_noFile metaDataKey metaData (by decide)]
  induction files with
  | nil => simp
  | cons f fs ih =>
    simp only [List.map_cons, List.filterMap_cons, parseFileLine_serJson_file]
    rw [ih]

/-- C3: serializing any finite sequence of JSON objects one object per
line (newline-delimited JSON) and parsing the result back with the
client's `_parse_ndjson` recovers exactly the same objects in the same
order. -/
theorem C3_ndjson_round_trip (objs : List Json) :
    parse_ndjson (encodeNdjson objs) = objs := by
  cases objs with
  | nil => rfl
  | cons o os =>
    rw [parse_ndjson_eq_map_filter]
    unfold encodeNdjson
    rw [strip_split_encode (o :: os) (by simp)]
    have hfilter : ((o :: os).map serJson).filter (fun l => !(pyStrip l).isEmpty) =
        (o :: os).map serJson := by
      apply List.filter_eq_self.mpr
      intro l hl
      obtain ⟨j, _, hj⟩ := List.mem_map.mp hl
      subst hj
      rw [pyStrip_serJson]
      cases he : serJson j with
      | nil => exact absurd he (serJson_ne_nil j)
      | cons c t => simp
    rw [hfilter, List.map_map]
    have hid : ∀ j ∈ o :: os, (lineValue ∘ serJson) j = j := by
      intro j _
      simp [Function.comp, lineValue, json_loads_serJson j]
    calc (o :: os).map (lineValue ∘ serJson) = (o :: os).map id := List.map_congr_left hid
      _ = o :: os := List.map_id _

/-- C8: `_parse_ndjson` is a total function of the response text (the
embedding is a Lean function, and the one construct of the source that can
raise — `json.loads` — is caught and replaced by an error dictionary).
Its output is exactly the non-blank lines, in order and number, each
mapped to its parsed JSON value when the line parses and to the
`{'_parse_error': ..., '_raw': line}` dictionary when it does not. -/
theorem C8_parse_ndjson_shape (text : Str) :
    parse_ndjson text =
      ((splitNl (pyStrip text)).filter (fun l => !(pyStrip l).isEmpty)).map lineValue ∧
    (parse_ndjson text).length =
      ((splitNl (pyStrip text)).filter (fun l => !(pyStrip l).isEmpty)).length ∧
    (∀ line j, json_loads line = some j → lineValue line = j) ∧
    (∀ line, json_loads line = none →
      lineValue line = parseErrorObj line ∧
      pyInStr parseErrorKey (parseErrorObj line) = .ok true ∧
      pyInStr rawKey (parseErrorObj line) = .ok true ∧
      subscrStr (parseErrorObj line) rawKey = .ok (.str line)) := by
  refine ⟨parse_ndjson_eq_map_filter text, ?_, ?_, ?_⟩
  · rw [parse_ndjson_eq_map_filter text, List.length_map]
  · intro line j hj
    simp [lineValue, hj]
  · intro line hn
    refine ⟨by simp [lineValue, hn], ?_, ?_, ?_⟩ <;>
      simp [parseErrorObj, pyInStr, subscrStr, lookupField, parseErrorKey, rawKey]

/-- Witness for C8 at a concrete two-line response whose second line is
not valid JSON. -/
theorem C8_witness :
    lineValue "5".data = Json.num 5 ∧
    lineValue "oops".data = parseErrorObj "oops".data ∧
    subscrStr (parseErrorObj "oops".data) rawKey = .ok (.str "oops".data) := by
  refine ⟨(C8_parse_ndjson_shape "5".data).2.2.1 "5".data (Json.num 5) rfl, ?_, ?_⟩
  · exact ((C8_parse_ndjson_shape "oops".data).2.2.2 "oops".data rfl).1
  · exact ((C8_parse_ndjson_shape "oops".data).2.2.2 "oops".data rfl).2.2.2

/-! ### C9: result accounting of `_execute_request` -/

/-- C9: every call to `_execute_request` increments `test_count` by one,
appends exactly one entry to `test_results`, and increments exactly one of
`success_count`/`fail_count` — on all three paths (2xx response, non-2xx
response, exception) — with the appended status PASSED iff `200 ≤ code <
300`, WARNING for any other response, FAILED for an exception; hence after
any sequence of calls from the freshly constructed tester,
`test_count = success_count + fail_count = len(test_results)`. -/
theorem C9_execute_request_accounting :
    (∀ (s : TesterCounters) (number name : Str) (outcome : ReqOutcome),
      (execute_request s number name outcome).test_count = s.test_count + 1 ∧
      (execute_request s number name outcome).test_results.length =
        s.test_results.length + 1 ∧
      ((execute_request s number name outcome).success_count +
        (execute_request s number name outcome).fail_count =
        s.success_count + s.fail_count + 1) ∧
      (∀ code, outcome = .response code → 200 ≤ code → code < 300 →
        (execute_request s number name outcome).success_count = s.success_count + 1 ∧
        (execute_request s number name outcome).fail_count = s.fail_count ∧
        (execute_request s number name outcome).test_results =
          s.test_results ++ [⟨number, name, statusPassed, some code⟩]) ∧
      (∀ code, outcome = .response code → ¬(200 ≤ code ∧ code < 300) →
        (execute_request s number name outcome).success_count = s.success_count ∧
        (execute_request s number name outcome).fail_count = s.fail_count + 1 ∧
        (execute_request s number name outcome).test_results =
          s.test_results ++ [⟨number, name, statusWarning, some code⟩]) ∧
      (outcome = .exception →
        (execute_request s number name outcome).success_count = s.success_count ∧
        (execute_request s number name outcome).fail_count = s.fail_count + 1 ∧
        (execute_request s number name outcome).test_results =
          s.test_results ++ [⟨number, name, statusFailed, none⟩])) ∧
    (∀ seq : List (Str × Str × ReqOutcome),
      (runRequests counters0 seq).test_count =
        (runRequests counters0 seq).success_count + (runRequests counters0 seq).fail_count ∧
      (runRequests counters0 seq).test_count =
        (runRequests counters0 seq).test_results.length) := by
  have hstep : ∀ (s : TesterCounters) (number name : Str) (outcome : ReqOutcome),
      (execute_request s number name outcome).test_count = s.test_count + 1 ∧
      (execute_request s number name outcome).test_results.length =
        s.test_results.length + 1 ∧
      ((execute_request s number name outcome).success_count +
        (execute_request s number name outcome).fail_count =
        s.success_count + s.fail_count + 1) := by
    intro s number name outcome
    cases outcome with
    | response code =>
      by_cases hc : 200 ≤ code ∧ code < 300
      · simp [execute_request, if_pos hc]
        omega
      · simp [execute_request, if_neg hc]
        omega
    | exception =>
      simp [execute_request]
      omega
  refine ⟨?_, ?_⟩
  · intro s number name outcome
    refine ⟨(hstep s number name outcome).1, (hstep s number name outcome).2.1,
      (hstep s number name outcome).2.2, ?_, ?_, ?_⟩
    · rintro code rfl h1 h2
      have hc : 200 ≤ code ∧ code < 300 := ⟨h1, h2⟩
      simp [execute_request, if_pos hc]
    · rintro code rfl hc
      simp [execute_request, if_neg hc]
    · rintro rfl
      simp [execute_request]
  · intro seq
    suffices h : ∀ (s : TesterCounters),
        s.test_count = s.success_count + s.fail_count →
        s.test_count = s.test_results.length →
        (runRequests s seq).test_count =
          (runRequests s seq).success_count + (runRequests s seq).fail_count ∧
        (runRequests s seq).test_count = (runRequests s seq).test_results.length by
      exact h counters0 rfl rfl
    induction seq with
    | nil => intro s h1 h2; exact ⟨h1, h2⟩
    | cons step rest ih =>
      intro s h1 h2
      obtain ⟨number, name, outcome⟩ := step
      have hs := hstep s number name outcome
      exact ih (execute_request s number name outcome)
        (by omega) (by omega)

/-! ### C7: the Authorization header survives every per-test merge -/

/-- C7: the base headers built in `__init__` always carry
`Authorization: Bearer <token>`, and for every per-test header dictionary
appearing anywhere in the protocol test suite the merge performed by
`_execute_request` (base copy updated with the per-test dict) still maps
`Authorization` to `Bearer <token>` — no test dict contains the key, so it
is never overridden, for every HTTP method (the merge is method-independent
in the source). -/
theorem C7_authorization_preserved (token : Str) (hd : List (Str × Str))
    (hmem : hd ∈ allTestHeaderDicts) :
    lookupHdr (baseHeaders token) authKey = some ("Bearer ".data ++ token) ∧
    lookupHdr hd authKey = none ∧
    mergedLookup (baseHeaders token) hd authKey = some ("Bearer ".data ++ token) := by
  have hupd : lookupHdr hd authKey = none := by
    fin_cases hmem <;> decide
  refine ⟨?_, hupd, ?_⟩
  · simp [baseHeaders, lookupHdr]
  · simp [mergedLookup, hupd, baseHeaders, lookupHdr]

/-- Witness for C7: the empty per-test dict and a delta-capabilities dict,
at a concrete token. -/
theorem C7_witness :
    mergedLookup (baseHeaders "tok123".data) [] authKey =
      some ("Bearer ".data ++ "tok123".data) ∧
    mergedLookup (baseHeaders "tok123".data)
      [(dscKey, "responseformat=delta".data), (dtvKey, "1".data)] authKey =
      some ("Bearer ".data ++ "tok123".data) :=
  ⟨(C7_authorization_preserved "tok123".data [] (by simp [allTestHeaderDicts])).2.2,
   (C7_authorization_preserved "tok123".data
      [(dscKey, "responseformat=delta".data), (dtvKey, "1".data)]
      (by simp [allTestHeaderDicts])).2.2⟩

/-! ### C5: negotiation fails closed -/

/-- C5 (spec-modelled): whenever the table's data requires a reader
feature that the negotiated capability set does not declare, negotiation
returns `UnsupportedReaderFeatures` and never an `ok` response shape — in
particular a capabilities header declaring no reader features, presented
against data requiring deletion vectors, is rejected rather than silently
served parquet. -/
theorem C5_negotiation_fails_closed (header : Option Str) (required : List Str)
    (f : Str) (hf : f ∈ required)
    (hnd : (parseCapabilities header).readerFeatures.contains f = false) :
    negotiate header required = .unsupportedReaderFeatures ∧
    ∀ caps, negotiate header required ≠ .ok caps := by
  have hall : required.all
      (fun g => (parseCapabilities header).readerFeatures.contains g) = false := by
    cases hA : required.all (fun g => (parseCapabilities header).readerFeatures.contains g) with
    | false => rfl
    | true =>
      have hx := List.all_eq_true.mp hA f hf
      rw [hnd] at hx
      simp at hx
  constructor
  · unfold negotiate
    rw [hall]
    simp
  · intro caps
    unfold negotiate
    rw [hall]
    simp

/-- Witness for C5: the header `responseformat=parquet` declares no reader
features, so a table requiring `deletionvectors` is refused. -/
theorem C5_witness :
    (parseCapabilities (some "responseformat=parquet".data)).readerFeatures.contains
      "deletionvectors".data = false ∧
    negotiate (some "responseformat=parquet".data) ["deletionvectors".data] =
      .unsupportedReaderFeatures :=
  ⟨rfl,
   (C5_negotiation_fails_closed (some "responseformat=parquet".data)
      ["deletionvectors".data] "deletionvectors".data (by simp) rfl).1⟩

/-! ### Query Planner soundness and the data-skipping validations -/

theorem jeq_refl (j : Json) : jeq j j = true := (jeq_iff j j).mpr rfl

theorem plan_hint_sound (files : List FileEntry) (partCols : List Str)
    (hints : List Hint) (lim : Option Nat) (c : Str) (v : Str)
    (hwf : wellFormedFiles files partCols) (hc : c ∈ partCols)
    (hhint : (⟨c, CompOp.eq, v⟩ : Hint) ∈ hints) :
    ∀ f ∈ plan files partCols hints lim, lookupStr f.partitionValues c = some v := by
  intro f hf
  have hmem : f ∈ files.filter
      (fun g => matchesHints partCols g.partitionValues hints) := by
    unfold plan at hf
    cases lim with
    | some n => exact List.mem_of_mem_take hf
    | none => exact hf
  obtain ⟨hfiles, hmatch⟩ := List.mem_filter.mp hmem
  have heval : evalHint partCols f.partitionValues ⟨c, CompOp.eq, v⟩ = true :=
    List.all_eq_true.mp hmatch _ hhint
  have hcontains : partCols.contains c = true := by
    simpa using hc
  unfold evalHint at heval
  rw [hcontains] at heval
  have hsome := hwf f hfiles c hc
  cases hl : lookupStr f.partitionValues c with
  | none => rw [hl] at hsome; simp at hsome
  | some v2 =>
    rw [hl] at heval
    simp only [if_true, decide_eq_true_eq] at heval
    rw [heval]

theorem plan_length_le (files : List FileEntry) (partCols : List Str)
    (hints : List Hint) (n : Nat) :
    (plan files partCols hints (some n)).length ≤ n := by
  unfold plan
  exact le_trans (List.length_take_le n _) le_rfl

theorem lookupField_map_str (l : List (Str × Str)) (c : Str) :
    lookupField (l.map (fun kv => (kv.1, Json.str kv.2))) c =
      (lookupStr l c).map Json.str := by
  induction l with
  | nil => rfl
  | cons kv l ih =>
    obtain ⟨k, v⟩ := kv
    by_cases hk : k = c <;> simp [lookupField, lookupStr, hk, ih]

theorem filePartValue_fileEntryToJson (f : FileEntry) (c : Str) :
    filePartValue (fileEntryToJson f) c =
      .ok (match lookupStr f.partitionValues c with
        | some v => Json.str v
        | none => Json.null) := by
  have hk1 : idKey ≠ partitionValuesKey := by decide
  have hk2 : urlKey ≠ partitionValuesKey := by decide
  have hk3 : sizeKey ≠ partitionValuesKey := by decide
  simp only [filePartValue, fileEntryToJson, lookupField, if_neg hk1, if_neg hk2,
    if_neg hk3, eq_self_iff_true, if_true, Option.getD_some, lookupField_map_str]
  cases lookupStr f.partitionValues c <;> rfl

theorem invalidFiles92_ok (files : List Json) (c : Str) (v : Json)
    (hwf : ∀ f ∈ files, ∃ val, filePartValue f c = .ok val) :
    invalidFiles92 files c v =
      .ok (files.filter (fun f =>
        match filePartValue f c with
        | .ok val => !jeq val v
        | .error _ => true)) := by
  induction files with
  | nil => rfl
  | cons f fs ih =>
    obtain ⟨val, hval⟩ := hwf f (List.mem_cons_self f fs)
    rw [invalidFiles92, hval, ih (fun g hg => hwf g (List.mem_cons_of_mem f hg))]
    by_cases hj : jeq val v <;> simp [List.filter_cons, hval, hj]

theorem test92Verdict_of_ok (files : List Json) (c : Str) (v : Json)
    (invalid : List Json) (h : invalidFiles92 files c v = .ok invalid) :
    test92Verdict files c v =
      if invalid.length ≠ 0 then .fail
      else if files.length > 0 then .success
      else .warnEmpty := by
  unfold test92Verdict
  rw [h]

theorem test92_fail_iff (files : List Json) (c : Str) (v : Json)
    (hwf : ∀ f ∈ files, ∃ val, filePartValue f c = .ok val) :
    (test92Verdict files c v = .fail ↔
      ∃ f ∈ files, ∃ val, filePartValue f c = .ok val ∧ jeq val v = false) ∧
    (test92Verdict files c v = .success ↔
      files ≠ [] ∧ ∀ f ∈ files, ∃ val, filePartValue f c = .ok val ∧ jeq val v = true) := by
  rw [test92Verdict_of_ok files c v _ (invalidFiles92_ok files c v hwf)]
  constructor
  · constructor
    · intro h
      by_cases hne : (files.filter (fun f =>
          match filePartValue f c with
          | .ok val => !jeq val v
          | .error _ => true)).length ≠ 0
      · have hpos : 0 < (files.filter (fun f =>
            match filePartValue f c with
            | .ok val => !jeq val v
            | .error _ => true)).length := by omega
        obtain ⟨f, hfmem⟩ := List.exists_mem_of_length_pos hpos
        obtain ⟨hfin, hfp⟩ := List.mem_filter.mp hfmem
        obtain ⟨val, hval⟩ := hwf f hfin
        rw [hval] at hfp
        simp only [Bool.not_eq_true'] at hfp
        exact ⟨f, hfin, val, hval, hfp⟩
      · rw [if_neg hne] at h
        split at h <;> simp at h
    · rintro ⟨f, hfin, val, hval, hne⟩
      have hfp : f ∈ files.filter (fun f =>
          match filePartValue f c with
          | .ok val => !jeq val v
          | .error _ => true) := by
        apply List.mem_filter.mpr
        refine ⟨hfin, ?_⟩
        rw [hval]
        simp [hne]
      have hlen : (files.filter (fun f =>
          match filePartValue f c with
          | .ok val => !jeq val v
          | .error _ => true)).length ≠ 0 := by
        have := List.length_pos_of_mem hfp
        omega
      rw [if_pos hlen]
  · constructor
    · intro h
      by_cases hne : (files.filter (fun f =>
          match filePartValue f c with
          | .ok val => !jeq val v
          | .error _ => true)).length ≠ 0
      · rw [if_pos hne] at h
        simp at h
      · rw [if_neg hne] at h
        by_cases hlen : files.length > 0
        · rw [if_pos hlen] at h
          refine ⟨by intro hnil; subst hnil; simp at hlen, ?_⟩
          intro f hfin
          obtain ⟨val, hval⟩ := hwf f hfin
          refine ⟨val, hval, ?_⟩
          by_contra hjv
          rw [Bool.not_eq_true] at hjv
          have hfp : f ∈ files.filter (fun f =>
              match filePartValue f c with
              | .ok val => !jeq val v
              | .error _ => true) := by
            apply List.mem_filter.mpr
            refine ⟨hfin, ?_⟩
            rw [hval]
            simp [hjv]
          have := List.length_pos_of_mem hfp
          omega
        · rw [if_neg hlen] at h
          simp at h
    · rintro ⟨hne, hall⟩
      have hfe : files.filter (fun f =>
          match filePartValue f c with
          | .ok val => !jeq val v
          | .error _ => true) = [] := by
        apply List.filter_eq_nil_iff.mpr
        intro f hfin
        obtain ⟨val, hval, hjv⟩ := hall f hfin
        rw [hval]
        simp [hjv]
      rw [hfe]
      have hlen : files.length > 0 := by
        cases files with
        | nil => exact absurd rfl hne
        | cons a l => simp
      simp [hlen]

/-- C1: (a) spec-modelled server soundness — for every query whose
predicate hints contain `c = v` over a partition column `c` of a
well-formed File Index, every file the Query Planner returns has
`partitionValues[c] = v` (so no file with a differing value is present);
(b) test 9.2's validation, translated from source, reports FAIL exactly
when some parsed file entry's `partitionValues[c]` differs from `v`, and
reports SUCCESS exactly when the parsed list is non-empty and every entry
matches; (c) end to end, a planned-and-encoded response for the hint
`c = v` never makes test 9.2 report FAIL. -/
theorem C1_eq_predicate_soundness :
    (∀ (files : List FileEntry) (partCols : List Str) (hints : List Hint)
        (lim : Option Nat) (c v : Str),
      wellFormedFiles files partCols → c ∈ partCols →
      (⟨c, CompOp.eq, v⟩ : Hint) ∈ hints →
      (∀ f ∈ plan files partCols hints lim,
        lookupStr f.partitionValues c = some v) ∧
      (∀ protocol metaData,
        test92Verdict
          (parse_files (queryResponseBody protocol metaData
            (plan files partCols hints lim))) c (Json.str v) ≠ Verdict.fail)) ∧
    (∀ (pfiles : List Json) (c : Str) (v : Json),
      (∀ f ∈ pfiles, ∃ val, filePartValue f c = .ok val) →
      (test92Verdict pfiles c v = .fail ↔
        ∃ f ∈ pfiles, ∃ val, filePartValue f c = .ok val ∧ jeq val v = false) ∧
      (test92Verdict pfiles c v = .success ↔
        pfiles ≠ [] ∧ ∀ f ∈ pfiles, ∃ val, filePartValue f c = .ok val ∧
          jeq val v = true)) := by
  constructor
  · intro files partCols hints lim c v hwf hc hhint
    have hsound := plan_hint_sound files partCols hints lim c v hwf hc hhint
    refine ⟨hsound, ?_⟩
    intro protocol metaData
    rw [parse_files_encode]
    have hwfp : ∀ f ∈ (plan files partCols hints lim).map fileEntryToJson,
        ∃ val, filePartValue f c = .ok val := by
      intro fj hfj
      obtain ⟨f, _, hfeq⟩ := List.mem_map.mp hfj
      subst hfeq
      exact ⟨_, filePartValue_fileEntryToJson f c⟩
    intro hfail
    obtain ⟨fj, hfjmem, val, hval, hjv⟩ :=
      (test92_fail_iff _ c (Json.str v) hwfp).1.mp hfail
    obtain ⟨f, hfmem, hfeq⟩ := List.mem_map.mp hfjmem
    subst hfeq
    rw [filePartValue_fileEntryToJson f c, hsound f hfmem] at hval
    simp only [Except.ok.injEq] at hval
    subst hval
    rw [jeq_refl] at hjv
    cases hjv
  · intro pfiles c v hwf
    exact test92_fail_iff pfiles c v hwf

/-- Witness for C1: a two-file catalog partitioned by `region`; the query
`region = us` plans only the `us` file, and the encoded response passes
test 9.2. -/
theorem C1_witness :
    lookupStr
      (FileEntry.mk "f1".data "u1".data 10
        [("region".data, "us".data)]).partitionValues "region".data =
      some "us".data ∧
    test92Verdict
      (parse_files (queryResponseBody Json.null Json.null
        (plan
          [⟨"f1".data, "u1".data, 10, [("region".data, "us".data)]⟩,
           ⟨"f2".data, "u2".data, 11, [("region".data, "eu".data)]⟩]
          ["region".data] [⟨"region".data, CompOp.eq, "us".data⟩] (some 100))))
      "region".data (Json.str "us".data) ≠ Verdict.fail := by
  have h := C1_eq_predicate_soundness.1
    [⟨"f1".data, "u1".data, 10, [("region".data, "us".data)]⟩,
     ⟨"f2".data, "u2".data, 11, [("region".data, "eu".data)]⟩]
    ["region".data] [⟨"region".data, CompOp.eq, "us".data⟩] (some 100)
    "region".data "us".data
    (by intro f hf c hc; fin_cases hf <;> fin_cases hc <;> decide)
    (by simp) (by simp)
  exact ⟨h.1 ⟨"f1".data, "u1".data, 10, [("region".data, "us".data)]⟩ (by decide),
    h.2 Json.null Json.null⟩

/-- C2: (a) spec-modelled server bound — for every query with
`limitHint = N`, the Query Planner returns at most `N` files, for every
`N ≥ 0`; (b) test 9.4's validation, translated from source, declares
SUCCESS iff the number of file entries parsed from the NDJSON response is
at most 2; (c) end to end, the encoded response to a `limitHint = 2` query
always passes test 9.4. -/
theorem C2_limit_hint_bound :
    (∀ (files : List FileEntry) (partCols : List Str) (hints : List Hint) (n : Nat),
      (plan files partCols hints (some n)).length ≤ n) ∧
    (∀ text : Str, test94Success text = true ↔ (parse_files text).length ≤ 2) ∧
    (∀ (files : List FileEntry) (partCols : List Str) (hints : List Hint)
        (protocol metaData : Json),
      test94Success (queryResponseBody protocol metaData
        (plan files partCols hints (some 2))) = true) := by
  refine ⟨fun files partCols hints n => plan_length_le files partCols hints n, ?_, ?_⟩
  · intro text
    simp [test94Success]
  · intro files partCols hints protocol metaData
    unfold test94Success
    rw [parse_files_encode, List.length_map]
    simpa using plan_length_le files partCols hints 2

/-- Witness for C9: a 200 response from the fresh tester is accounted as
one PASSED entry. -/
theorem C9_witness :
    (execute_request counters0 "1".data "List Shares".data
      (ReqOutcome.response 200)).success_count = counters0.success_count + 1 ∧
    (execute_request counters0 "1".data "List Shares".data
      (ReqOutcome.response 200)).test_results =
      counters0.test_results ++
        [⟨"1".data, "List Shares".data, statusPassed, some 200⟩] := by
  have h := (C9_execute_request_accounting.1 counters0 "1".data "List Shares".data
    (ReqOutcome.response 200)).2.2.2.1 200 rfl (by omega) (by omega)
  exact ⟨h.1, h.2.2⟩

/-! ### Test 9.3: conjunction of predicate hints -/

theorem invalidFiles93_ok (files : List Json) (c1 : Str) (v1 : Json) (c2 : Str) (v2 : Json)
    (hwf1 : ∀ f ∈ files, ∃ val, filePartValue f c1 = .ok val)
    (hwf2 : ∀ f ∈ files, ∃ val, filePartValue f c2 = .ok val) :
    invalidFiles93 files c1 v1 c2 v2 =
      .ok (files.filter (fun f =>
        match filePartValue f c1, filePartValue f c2 with
        | .ok val1, .ok val2 => !(jeq val1 v1 && jeq val2 v2)
        | _, _ => true)) := by
  induction files with
  | nil => rfl
  | cons f fs ih =>
    obtain ⟨val1, hval1⟩ := hwf1 f (List.mem_cons_self f fs)
    obtain ⟨val2, hval2⟩ := hwf2 f (List.mem_cons_self f fs)
    rw [invalidFiles93, hval1,
      ih (fun g hg => hwf1 g (List.mem_cons_of_mem f hg))
        (fun g hg => hwf2 g (List.mem_cons_of_mem f hg))]
    by_cases hj1 : jeq val1 v1
    · by_cases hj2 : jeq val2 v2 <;>
        simp [List.filter_cons, Except.map, hval1, hval2, hj1, hj2]
    · simp [List.filter_cons, Except.map, hval1, hval2, hj1]

theorem test93Verdict_of_ok (files : List Json) (c1 : Str) (v1 : Json) (c2 : Str)
    (v2 : Json) (invalid : List Json)
    (h : invalidFiles93 files c1 v1 c2 v2 = .ok invalid) :
    test93Verdict files c1 v1 c2 v2 =
      if invalid.length ≠ 0 then .fail
      else if files.length > 0 then .success
      else .warnEmpty := by
  unfold test93Verdict
  rw [h]

theorem test93_fail_iff (files : List Json) (c1 : Str) (v1 : Json) (c2 : Str) (v2 : Json)
    (hwf1 : ∀ f ∈ files, ∃ val, filePartValue f c1 = .ok val)
    (hwf2 : ∀ f ∈ files, ∃ val, filePartValue f c2 = .ok val) :
    (test93Verdict files c1 v1 c2 v2 = .fail ↔
      ∃ f ∈ files, ∃ val1 val2, filePartValue f c1 = .ok val1 ∧
        filePartValue f c2 = .ok val2 ∧
        (jeq val1 v1 = false ∨ jeq val2 v2 = false)) ∧
    (test93Verdict files c1 v1 c2 v2 = .success ↔
      files ≠ [] ∧ ∀ f ∈ files, ∃ val1 val2, filePartValue f c1 = .ok val1 ∧
        filePartValue f c2 = .ok val2 ∧ jeq val1 v1 = true ∧ jeq val2 v2 = true) := by
  rw [test93Verdict_of_ok files c1 v1 c2 v2 _ (invalidFiles93_ok files c1 v1 c2 v2 hwf1 hwf2)]
  constructor
  · constructor
    · intro h
      by_cases hne : (files.filter (fun f =>
          match filePartValue f c1, filePartValue f c2 with
          | .ok val1, .ok val2 => !(jeq val1 v1 && jeq val2 v2)
          | _, _ => true)).length ≠ 0
      · have hpos : 0 < (files.filter (fun f =>
            match filePartValue f c1, filePartValue f c2 with
            | .ok val1, .ok val2 => !(jeq val1 v1 && jeq val2 v2)
            | _, _ => true)).length := by omega
        obtain ⟨f, hfmem⟩ := List.exists_mem_of_length_pos hpos
        obtain ⟨hfin, hfp⟩ := List.mem_filter.mp hfmem
        obtain ⟨val1, hval1⟩ := hwf1 f hfin
        obtain ⟨val2, hval2⟩ := hwf2 f hfin
        rw [hval1, hval2] at hfp
        simp only [Bool.not_eq_true', Bool.and_eq_false_iff] at hfp
        exact ⟨f, hfin, val1, val2, hval1, hval2, hfp⟩
      · rw [if_neg hne] at h
        split at h <;> simp at h
    · rintro ⟨f, hfin, val1, val2, hval1, hval2, hne⟩
      have hfp : f ∈ files.filter (fun f =>
          match filePartValue f c1, filePartValue f c2 with
          | .ok val1, .ok val2 => !(jeq val1 v1 && jeq val2 v2)
          | _, _ => true) := by
        apply List.mem_filter.mpr
        refine ⟨hfin, ?_⟩
        rw [hval1, hval2]
        rcases hne with hne | hne <;> simp [hne]
      have hlen := List.length_pos_of_mem hfp
      rw [if_pos (by omega)]
  · constructor
    · intro h
      by_cases hne : (files.filter (fun f =>
          match filePartValue f c1, filePartValue f c2 with
          | .ok val1, .ok val2 => !(jeq val1 v1 && jeq val2 v2)
          | _, _ => true)).length ≠ 0
      · rw [if_pos hne] at h
        simp at h
      · rw [if_neg hne] at h
        by_cases hlen : files.length > 0
        · rw [if_pos hlen] at h
          refine ⟨by intro hnil; subst hnil; simp at hlen, ?_⟩
          intro f hfin
          obtain ⟨val1, hval1⟩ := hwf1 f hfin
          obtain ⟨val2, hval2⟩ := hwf2 f hfin
          refine ⟨val1, val2, hval1, hval2, ?_⟩
          by_contra hjv
          rw [not_and_or] at hjv
          have hfp : f ∈ files.filter (fun f =>
              match filePartValue f c1, filePartValue f c2 with
              | .ok val1, .ok val2 => !(jeq val1 v1 && jeq val2 v2)
              | _, _ => true) := by
            apply List.mem_filter.mpr
            refine ⟨hfin, ?_⟩
            rw [hval1, hval2]
            rcases hjv with hjv | hjv <;>
              rw [Bool.not_eq_true] at hjv <;> simp [hjv]
          have := List.length_pos_of_mem hfp
          omega
        · rw [if_neg hlen] at h
          simp at h
    · rintro ⟨hne, hall⟩
      have hfe : files.filter (fun f =>
          match filePartValue f c1, filePartValue f c2 with
          | .ok val1, .ok val2 => !(jeq val1 v1 && jeq val2 v2)
          | _, _ => true) = [] := by
        apply List.filter_eq_nil_iff.mpr
        intro f hfin
        obtain ⟨val1, val2, hval1, hval2, hj1, hj2⟩ := hall f hfin
        rw [hval1, hval2]
        simp [hj1, hj2]
      rw [hfe]
      have hlen : files.length > 0 := by
        cases files with
        | nil => exact absurd rfl hne
        | cons a l => simp
      simp [hlen]

/-- C4: (a) spec-modelled server — predicate hints combine by conjunction:
for every query whose hints contain both `c1 = v1` and `c2 = v2` over
partition columns of a well-formed File Index, every planned file
satisfies both conjuncts; (b) test 9.3's validation, translated from
source, reports FAIL exactly when some returned file violates either
conjunct (and SUCCESS exactly when files were returned and all satisfy
both); (c) end to end, the encoded response to such a query never makes
test 9.3 report FAIL. -/
theorem C4_conjunction_of_hints :
    (∀ (files : List FileEntry) (partCols : List Str) (hints : List Hint)
        (lim : Option Nat) (c1 v1 c2 v2 : Str),
      wellFormedFiles files partCols → c1 ∈ partCols → c2 ∈ partCols →
      (⟨c1, CompOp.eq, v1⟩ : Hint) ∈ hints → (⟨c2, CompOp.eq, v2⟩ : Hint) ∈ hints →
      (∀ f ∈ plan files partCols hints lim,
        lookupStr f.partitionValues c1 = some v1 ∧
        lookupStr f.partitionValues c2 = some v2) ∧
      (∀ protocol metaData,
        test93Verdict
          (parse_files (queryResponseBody protocol metaData
            (plan files partCols hints lim)))
          c1 (Json.str v1) c2 (Json.str v2) ≠ Verdict.fail)) ∧
    (∀ (pfiles : List Json) (c1 : Str) (v1 : Json) (c2 : Str) (v2 : Json),
      (∀ f ∈ pfiles, ∃ val, filePartValue f c1 = .ok val) →
      (∀ f ∈ pfiles, ∃ val, filePartValue f c2 = .ok val) →
      (test93Verdict pfiles c1 v1 c2 v2 = .fail ↔
        ∃ f ∈ pfiles, ∃ val1 val2, filePartValue f c1 = .ok val1 ∧
          filePartValue f c2 = .ok val2 ∧
          (jeq val1 v1 = false ∨ jeq val2 v2 = false)) ∧
      (test93Verdict pfiles c1 v1 c2 v2 = .success ↔
        pfiles ≠ [] ∧ ∀ f ∈ pfiles, ∃ val1 val2, filePartValue f c1 = .ok val1 ∧
          filePartValue f c2 = .ok val2 ∧ jeq val1 v1 = true ∧ jeq val2 v2 = true)) := by
  constructor
  · intro files partCols hints lim c1 v1 c2 v2 hwf hc1 hc2 hh1 hh2
    have hs1 := plan_hint_sound files partCols hints lim c1 v1 hwf hc1 hh1
    have hs2 := plan_hint_sound files partCols hints lim c2 v2 hwf hc2 hh2
    refine ⟨fun f hf => ⟨hs1 f hf, hs2 f hf⟩, ?_⟩
    intro protocol metaData
    rw [parse_files_encode]
    have hwfp1 : ∀ f ∈ (plan files partCols hints lim).map fileEntryToJson,
        ∃ val, filePartValue f c1 = .ok val := by
      intro fj hfj
      obtain ⟨f, _, hfeq⟩ := List.mem_map.mp hfj
      subst hfeq
      exact ⟨_, filePartValue_fileEntryToJson f c1⟩
    have hwfp2 : ∀ f ∈ (plan files partCols hints lim).map fileEntryToJson,
        ∃ val, filePartValue f c2 = .ok val := by
      intro fj hfj
      obtain ⟨f, _, hfeq⟩ := List.mem_map.mp hfj
      subst hfeq
      exact ⟨_, filePartValue_fileEntryToJson f c2⟩
    intro hfail
    obtain ⟨fj, hfjmem, val1, val2, hval1, hval2, hviol⟩ :=
      (test93_fail_iff _ c1 (Json.str v1) c2 (Json.str v2) hwfp1 hwfp2).1.mp hfail
    obtain ⟨f, hfmem, hfeq⟩ := List.mem_map.mp hfjmem
    subst hfeq
    rw [filePartValue_fileEntryToJson f c1, hs1 f hfmem] at hval1
    rw [filePartValue_fileEntryToJson f c2, hs2 f hfmem] at hval2
    simp only [Except.ok.injEq] at hval1 hval2
    subst hval1
    subst hval2
    rw [jeq_refl, jeq_refl] at hviol
    rcases hviol with h | h <;> cases h
  · intro pfiles c1 v1 c2 v2 hwf1 hwf2
    exact test93_fail_iff pfiles c1 v1 c2 v2 hwf1 hwf2

/-- Witness for C4: a catalog partitioned by `region` and `year`; a query
with both hints plans only the matching file, and the encoded response
passes test 9.3. -/
theorem C4_witness :
    (lookupStr [("region".data, "us".data), ("year".data, "2024".data)]
        "region".data = some "us".data ∧
      lookupStr [("region".data, "us".data), ("year".data, "2024".data)]
        "year".data = some "2024".data) ∧
    test93Verdict
      (parse_files (queryResponseBody Json.null Json.null
        (plan
          [⟨"f1".data, "u1".data, 10, [("region".data, "us".data), ("year".data, "2024".data)]⟩,
           ⟨"f2".data, "u2".data, 11, [("region".data, "eu".data), ("year".data, "2024".data)]⟩]
          ["region".data, "year".data]
          [⟨"region".data, CompOp.eq, "us".data⟩, ⟨"year".data, CompOp.eq, "2024".data⟩]
          (some 100))))
      "region".data (Json.str "us".data) "year".data (Json.str "2024".data) ≠
      Verdict.fail := by
  have h := C4_conjunction_of_hints.1
    [⟨"f1".data, "u1".data, 10, [("region".data, "us".data), ("year".data, "2024".data)]⟩,
     ⟨"f2".data, "u2".data, 11, [("region".data, "eu".data), ("year".data, "2024".data)]⟩]
    ["region".data, "year".data]
    [⟨"region".data, CompOp.eq, "us".data⟩, ⟨"year".data, CompOp.eq, "2024".data⟩]
    (some 100) "region".data "us".data "year".data "2024".data
    (by intro f hf c hc; fin_cases hf <;> fin_cases hc <;> decide)
    (by simp) (by simp) (by simp) (by simp)
  exact ⟨h.1 ⟨"f1".data, "u1".data, 10,
      [("region".data, "us".data), ("year".data, "2024".data)]⟩ (by decide),
    h.2 Json.null Json.null⟩

/-! ### C6: discovery state on initialization failure -/

/-- Counterexample to C6 as stated: when `GET /shares` succeeds (one share
named `s1`) but `GET /shares/{share}/all-tables` returns HTTP 500 — one of
the very failure causes the claim enumerates — `_initialize_resources`
returns `False` yet `discovered_share` has already been assigned (line 163
runs before step 2), so it does **not** remain `None`. -/
theorem C6_counterexample :
    (initialize_resources initState0
      (some (200, some (Json.obj
        [(itemsKey, Json.arr [Json.obj [(nameKey, Json.str "s1".data)]])])))
      (some (500, some (Json.obj [])))).2 = false ∧
    (initialize_resources initState0
      (some (200, some (Json.obj
        [(itemsKey, Json.arr [Json.obj [(nameKey, Json.str "s1".data)]])])))
      (some (500, some (Json.obj [])))).1.discovered_share =
      some (Json.str "s1".data) :=
  ⟨rfl, rfl⟩

theorem init_res_initialized_or (s0 : InitState) (a b : Option (Nat × Option Json)) :
    (initialize_resources s0 a b).1.initialized = s0.initialized ∨
    (initialize_resources s0 a b).2 = true := by
  simp only [initialize_resources]
  repeat' first
    | exact Or.inl rfl
    | exact Or.inr rfl
    | split

theorem initialize_resources_false_initialized (s0 : InitState)
    (a b : Option (Nat × Option Json))
    (h : (initialize_resources s0 a b).2 = false) :
    (initialize_resources s0 a b).1.initialized = s0.initialized := by
  rcases init_res_initialized_or s0 a b with h1 | h2
  · exact h1
  · rw [h] at h2
    cases h2

theorem initialize_resources_shares_failure (s0 : InitState)
    (b : Option (Nat × Option Json)) (st1 : Nat) (body1 : Option Json)
    (hfail : st1 ≠ 200 ∨
      (∃ sd, body1 = some sd ∧ pyInStr itemsKey sd = .ok false) ∨
      (∃ sd itemsJ, body1 = some sd ∧ pyInStr itemsKey sd = .ok true ∧
        subscrStr sd itemsKey = .ok itemsJ ∧ pyLen itemsJ = .ok 0)) :
    initialize_resources s0 (some (st1, body1)) b = (s0, false) := by
  rcases hfail with h | ⟨sd, rfl, h⟩ | ⟨sd, itemsJ, rfl, h1, h2, h3⟩
  · simp [initialize_resources, h]
  · by_cases hst : st1 = 200
    · subst hst
      simp [initialize_resources, h]
    · simp [initialize_resources, hst]
  · by_cases hst : st1 = 200
    · subst hst
      simp [initialize_resources, h1, h2, h3]
    · simp [initialize_resources, hst]

theorem initialize_resources_tables_failure (sd itemsJ first nameJ : Json)
    (st2 : Nat) (body2 : Option Json) (n1 : Nat)
    (h1 : pyInStr itemsKey sd = .ok true)
    (h2 : subscrStr sd itemsKey = .ok itemsJ)
    (h3 : pyLen itemsJ = .ok n1) (hn : n1 ≠ 0)
    (h4 : subscrIdx itemsJ 0 = .ok first)
    (h5 : subscrStr first nameKey = .ok nameJ)
    (hfail : st2 ≠ 200 ∨
      (∃ td, body2 = some td ∧ pyInStr itemsKey td = .ok false) ∨
      (∃ td tItems, body2 = some td ∧ pyInStr itemsKey td = .ok true ∧
        subscrStr td itemsKey = .ok tItems ∧ pyLen tItems = .ok 0)) :
    initialize_resources initState0 (some (200, some sd)) (some (st2, body2)) =
      (⟨some nameJ, none, none, itemsJ, Json.arr [], false⟩, false) := by
  rcases hfail with h | ⟨td, rfl, h⟩ | ⟨td, tItems, rfl, ht1, ht2, ht3⟩
  · simp [initialize_resources, h1, h2, h3, hn, h4, h5, h, initState0]
  · by_cases hst : st2 = 200
    · subst hst
      simp [initialize_resources, h1, h2, h3, hn, h4, h5, h, initState0]
    · simp [initialize_resources, h1, h2, h3, hn, h4, h5, hst, initState0]
  · by_cases hst : st2 = 200
    · subst hst
      simp [initialize_resources, h1, h2, h3, hn, h4, h5, ht1, ht2, ht3, initState0]
    · simp [initialize_resources, h1, h2, h3, hn, h4, h5, hst, initState0]

/-- C6 amended: whenever `_initialize_resources` returns `False`, the
`initialized` flag is left unchanged (so it remains `False` from the fresh
state); when the `GET /shares` response fails one of the claim's checks
(non-200 status, missing `items`, or empty `items`), all discovery state
is untouched exactly as the claim says; but when share listing succeeded
and the `all-tables` response fails one of those checks,
`discovered_schema` and `discovered_table` do remain `None` while
`discovered_share` (and `discovered_shares`) are already populated —
contrary to the claim's "all remain None". -/
theorem C6_amended_failure_state :
    (∀ (s0 : InitState) (a b : Option (Nat × Option Json)),
      (initialize_resources s0 a b).2 = false →
      (initialize_resources s0 a b).1.initialized = s0.initialized) ∧
    (∀ (s0 : InitState) (b : Option (Nat × Option Json)) (st1 : Nat)
        (body1 : Option Json),
      (st1 ≠ 200 ∨
        (∃ sd, body1 = some sd ∧ pyInStr itemsKey sd = .ok false) ∨
        (∃ sd itemsJ, body1 = some sd ∧ pyInStr itemsKey sd = .ok true ∧
          subscrStr sd itemsKey = .ok itemsJ ∧ pyLen itemsJ = .ok 0)) →
      initialize_resources s0 (some (st1, body1)) b = (s0, false)) ∧
    (∀ (sd itemsJ first nameJ : Json) (st2 : Nat) (body2 : Option Json) (n1 : Nat),
      pyInStr itemsKey sd = .ok true →
      subscrStr sd itemsKey = .ok itemsJ →
      pyLen itemsJ = .ok n1 → n1 ≠ 0 →
      subscrIdx itemsJ 0 = .ok first →
      subscrStr first nameKey = .ok nameJ →
      (st2 ≠ 200 ∨
        (∃ td, body2 = some td ∧ pyInStr itemsKey td = .ok false) ∨
        (∃ td tItems, body2 = some td ∧ pyInStr itemsKey td = .ok true ∧
          subscrStr td itemsKey = .ok tItems ∧ pyLen tItems = .ok 0)) →
      initialize_resources initState0 (some (200, some sd)) (some (st2, body2)) =
        (⟨some nameJ, none, none, itemsJ, Json.arr [], false⟩, false)) :=
  ⟨initialize_resources_false_initialized,
   initialize_resources_shares_failure,
   initialize_resources_tables_failure⟩

/-- Witness for the amended C6 at concrete responses: a 404 share listing
leaves the fresh state untouched, and a 500 all-tables response after a
successful share listing keeps schema/table `None` while the share is
populated. -/
theorem C6_witness :
    initialize_resources initState0 (some (404, none)) none = (initState0, false) ∧
    initialize_resources initState0
      (some (200, some (Json.obj
        [(itemsKey, Json.arr [Json.obj [(nameKey, Json.str "s1".data)]])])))
      (some (500, some (Json.obj []))) =
      (⟨some (Json.str "s1".data), none, none,
        Json.arr [Json.obj [(nameKey, Json.str "s1".data)]], Json.arr [], false⟩,
       false) :=
  ⟨C6_amended_failure_state.2.1 initState0 none 404 none (Or.inl (by omega)),
   C6_amended_failure_state.2.2
     (Json.obj [(itemsKey, Json.arr [Json.obj [(nameKey, Json.str "s1".data)]])])
     (Json.arr [Json.obj [(nameKey, Json.str "s1".data)]])
     (Json.obj [(nameKey, Json.str "s1".data)]) (Json.str "s1".data)
     500 (some (Json.obj [])) 1 rfl rfl rfl (by omega) rfl rfl
     (Or.inl (by omega))⟩

/-! ### C10: profile-loading error behaviour -/

/-- Counterexample to C10 as stated: a profile file containing `5` is
valid JSON in which both required keys are absent, yet
`load_profile_config` raises `TypeError` (Python `in` applied to an
integer, line 1479), not the `KeyError` the claim requires for valid JSON
with absent keys. -/
theorem C10_counterexample :
    json_loads "5".data = some (Json.num 5) ∧
    load_profile_config
      (fun p => if p = "config.share".data then some "5".data else none)
      "config.share".data = ProfileResult.typeError ∧
    isKeyError (load_profile_config
      (fun p => if p = "config.share".data then some "5".data else none)
      "config.share".data) = false :=
  ⟨rfl, rfl, rfl⟩

theorem load_profile_not_found_iff (fs : Str → Option Str) (path : Str) :
    load_profile_config fs path = .fileNotFound ↔ fs path = none := by
  constructor
  · intro h
    cases hfs : fs path with
    | none => rfl
    | some contents =>
      exfalso
      cases hld : json_loads contents with
      | none =>
        simp [load_profile_config, hfs, hld] at h
      | some config =>
        cases hpe : pyInStr endpointKey config with
        | error e =>
          simp [load_profile_config, hfs, hld, hpe] at h
        | ok hasE =>
          cases hpb : pyInStr bearerTokenKey config with
          | error e =>
            simp [load_profile_config, hfs, hld, hpe, hpb] at h
          | ok hasB =>
            simp only [load_profile_config, hfs, hld, hpe, hpb] at h
            cases hasE <;> cases hasB <;> simp at h
  · intro h
    simp only [load_profile_config, h]

theorem load_profile_decode_error (fs : Str → Option Str) (path : Str) (contents : Str)
    (hfs : fs path = some contents) (hld : json_loads contents = none) :
    load_profile_config fs path = .jsonDecodeError := by
  simp only [load_profile_config, hfs, hld]

theorem load_profile_obj (fs : Str → Option Str) (path : Str) (contents : Str)
    (kvs : List (Str × Json)) (hfs : fs path = some contents)
    (hld : json_loads contents = some (.obj kvs)) :
    (load_profile_config fs path = .ok (.obj kvs) ↔
      (lookupField kvs endpointKey).isSome = true ∧
      (lookupField kvs bearerTokenKey).isSome = true) ∧
    ((∃ missing, load_profile_config fs path = .keyError missing) ↔
      ((lookupField kvs endpointKey).isSome = false ∨
        (lookupField kvs bearerTokenKey).isSome = false)) := by
  have hres : load_profile_config fs path =
      (if ((if (lookupField kvs endpointKey).isSome then []
            else [endpointKey]) ++
           (if (lookupField kvs bearerTokenKey).isSome then []
            else [bearerTokenKey])).isEmpty
       then ProfileResult.ok (.obj kvs)
       else .keyError ((if (lookupField kvs endpointKey).isSome then []
            else [endpointKey]) ++
           (if (lookupField kvs bearerTokenKey).isSome then []
            else [bearerTokenKey]))) := by
    simp only [load_profile_config, hfs, hld, pyInStr]
  by_cases he : (lookupField kvs endpointKey).isSome
  · by_cases hb : (lookupField kvs bearerTokenKey).isSome
    · rw [he, hb] at hres
      simp only [if_true, List.append_nil, List.isEmpty_nil] at hres
      rw [hres]
      constructor
      · simp [he, hb]
      · constructor
        · rintro ⟨m, hm⟩
          simp at hm
        · rintro (hf | hf)
          · rw [he] at hf; cases hf
          · rw [hb] at hf; cases hf
    · have hb2 : (lookupField kvs bearerTokenKey).isSome = false := by
        simpa using hb
      rw [he, hb2] at hres
      simp only [if_true, if_false, List.nil_append] at hres
      rw [hres]
      constructor
      · constructor
        · intro h; simp at h
        · rintro ⟨-, hb'⟩
          rw [hb'] at hb
          exact absurd rfl hb
      · constructor
        · intro _
          exact Or.inr (by simpa using hb)
        · intro _
          exact ⟨[bearerTokenKey], by simp⟩
  · have he2 : (lookupField kvs endpointKey).isSome = false := by
      simpa using he
    rw [he2] at hres
    simp at hres
    rw [hres]
    constructor
    · constructor
      · intro h; simp at h
      · rintro ⟨he', -⟩
        rw [he'] at he
        exact absurd rfl he
    · constructor
      · intro _
        exact Or.inl (by simpa using he)
      · intro _
        refine ⟨endpointKey :: (if (lookupField kvs bearerTokenKey).isSome then []
          else [bearerTokenKey]), by simp⟩

/-- C10 amended: `load_profile_config` raises `FileNotFoundError` iff the
file does not exist; an existing file whose contents are not valid JSON
raises `json.JSONDecodeError`; and for valid JSON that is an
object/dictionary it raises `KeyError` iff `endpoint` or `bearerToken` is
absent, otherwise returning the parsed dictionary unchanged.  (For valid
non-object JSON the membership test follows Python `in` semantics and may
instead raise `TypeError` — see the counterexample — which is the only
correction to the claim.) -/
theorem C10_amended_profile_loading :
    (∀ (fs : Str → Option Str) (path : Str),
      load_profile_config fs path = .fileNotFound ↔ fs path = none) ∧
    (∀ (fs : Str → Option Str) (path : Str) (contents : Str),
      fs path = some contents → json_loads contents = none →
      load_profile_config fs path = .jsonDecodeError) ∧
    (∀ (fs : Str → Option Str) (path : Str) (contents : Str)
        (kvs : List (Str × Json)),
      fs path = some contents → json_loads contents = some (.obj kvs) →
      (load_profile_config fs path = .ok (.obj kvs) ↔
        (lookupField kvs endpointKey).isSome = true ∧
        (lookupField kvs bearerTokenKey).isSome = true) ∧
      ((∃ missing, load_profile_config fs path = .keyError missing) ↔
        ((lookupField kvs endpointKey).isSome = false ∨
          (lookupField kvs bearerTokenKey).isSome = false))) :=
  ⟨load_profile_not_found_iff, load_profile_decode_error, load_profile_obj⟩

/-- Witness for the amended C10: a complete profile is returned unchanged,
a profile missing `bearerToken` raises `KeyError`, a missing file raises
`FileNotFoundError`, and non-JSON contents raise `JSONDecodeError`. -/
theorem C10_witness :
    load_profile_config
      (fun p => if p = "config.share".data
        then some (serJson (Json.obj
          [(endpointKey, Json.str "http".data), (bearerTokenKey, Json.str "t".data)]))
        else none)
      "config.share".data =
      ProfileResult.ok (Json.obj
        [(endpointKey, Json.str "http".data), (bearerTokenKey, Json.str "t".data)]) ∧
    (∃ missing, load_profile_config
      (fun p => if p = "config.share".data
        then some (serJson (Json.obj [(endpointKey, Json.str "http".data)]))
        else none)
      "config.share".data = ProfileResult.keyError missing) ∧
    load_profile_config (fun _ => none) "config.share".data =
      ProfileResult.fileNotFound ∧
    load_profile_config
      (fun p => if p = "config.share".data then some "not json".data else none)
      "config.share".data = ProfileResult.jsonDecodeError := by
  refine ⟨?_, ?_, ?_, ?_⟩
  · exact (C10_amended_profile_loading.2.2
      (fun p => if p = "config.share".data
        then some (serJson (Json.obj
          [(endpointKey, Json.str "http".data), (bearerTokenKey, Json.str "t".data)]))
        else none)
      "config.share".data
      (serJson (Json.obj
        [(endpointKey, Json.str "http".data), (bearerTokenKey, Json.str "t".data)]))
      [(endpointKey, Json.str "http".data), (bearerTokenKey, Json.str "t".data)]
      (by simp)
      (json_loads_serJson (Json.obj
        [(endpointKey, Json.str "http".data),
          (bearerTokenKey, Json.str "t".data)]))).1.mpr ⟨by decide, by decide⟩
  · exact (C10_amended_profile_loading.2.2
      (fun p => if p = "config.share".data
        then some (serJson (Json.obj [(endpointKey, Json.str "http".data)]))
        else none)
      "config.share".data
      (serJson (Json.obj [(endpointKey, Json.str "http".data)]))
      [(endpointKey, Json.str "http".data)]
      (by simp)
      (json_loads_serJson
        (Json.obj [(endpointKey, Json.str "http".data)]))).2.mpr
      (Or.inr (by decide))
  · exact (C10_amended_profile_loading.1 (fun _ => none) "config.share".data).mpr rfl
  · exact C10_amended_profile_loading.2.1 _ "config.share".data "not json".data
      (by simp) rfl

end DSG
